import Mathlib

/-!
# To-Do App (`script.js`): shallow embedding and verification

The script keeps a module-scoped array `tasks` and a string `currentFilter`,
mutates them from DOM event handlers, writes the array to `localStorage`
after every mutation and re-renders the list.  The embedding below makes that
state explicit (`AppState`) and turns every function of the script into a
pure state transformer with the same name.

Modelling conventions
* JavaScript strings are modelled by Lean `String` (sequences of Unicode
  scalar values); strings holding unpaired surrogates are outside the model.
* `Date.now()` is a natural number; `Math.random().toString(36)` is taken as
  the string the platform renders (the rendering of a double in radix 36 is
  left to the platform by ECMAScript).
* The JavaScript Numbers of the progress computation are IEEE-754 doubles.
  A double is carried as the rational it denotes, and every arithmetic
  operation rounds its exact result to the nearest double, ties to even
  (`toDouble`).  The values that occur are far from overflow and underflow,
  so the exponent range is left unbounded.
* The DOM is reduced to the parts the script reads or writes: the add input's
  value, the cards in the list container (each with a node identity), the
  empty-state flag, the filter buttons, the progress bar width and the toasts.
  The cosmetic timer that dismisses a toast and the messages written to the
  console are not modelled.
-/

namespace TodoApp

/-! ## JavaScript strings -/

/-- WhiteSpace and LineTerminator code points of ECMAScript, the characters
`String.prototype.trim` strips. -/
def isJsWhiteSpace (c : Char) : Bool :=
  let n := c.toNat
  n = 0x09 || n = 0x0A || n = 0x0B || n = 0x0C || n = 0x0D || n = 0x20 ||
  n = 0xA0 || n = 0x1680 || (0x2000 ≤ n && n ≤ 0x200A) || n = 0x2028 ||
  n = 0x2029 || n = 0x202F || n = 0x205F || n = 0x3000 || n = 0xFEFF

/-- Strip leading white space. -/
def trimStart (cs : List Char) : List Char := cs.dropWhile isJsWhiteSpace

/-- Strip trailing white space. -/
def trimEnd (cs : List Char) : List Char :=
  (cs.reverse.dropWhile isJsWhiteSpace).reverse

/-- `String.prototype.trim`. -/
def jsTrim (s : String) : String := ⟨trimEnd (trimStart s.data)⟩

/-- A text that is empty or consists only of white space. -/
def isBlank (s : String) : Bool := s.data.all isJsWhiteSpace

/-- One digit of a radix-36 rendering (`0`-`9`, `a`-`z`). -/
def digit36 (n : Nat) : Char :=
  if n < 10 then Char.ofNat (48 + n) else Char.ofNat (87 + n)

/-- Digits of `n` in radix 36, most significant first. -/
def toDigits36 : Nat → Nat → List Char → List Char
  | 0, _, acc => acc
  | fuel + 1, n, acc =>
    if n < 36 then digit36 n :: acc
    else toDigits36 fuel (n / 36) (digit36 (n % 36) :: acc)

/-- `Number.prototype.toString(36)` on a non-negative integer. -/
def toString36 (n : Nat) : String := ⟨toDigits36 (n + 1) n []⟩

/-- `String.prototype.substr(2)`: everything from index 2 on. -/
def substr2 (s : String) : String := ⟨s.data.drop 2⟩

/-- `generateUniqueId`: `Date.now().toString(36) + Math.random().toString(36).substr(2)`.
`now` is the value of `Date.now()`, `random36` the value of
`Math.random().toString(36)`. -/
def generateUniqueId (now : Nat) (random36 : String) : String :=
  toString36 now ++ substr2 random36

/-! ## Task records -/

/-- A task record `{ id, text, completed }`. -/
structure Task where
  id : String
  text : String
  completed : Bool
deriving DecidableEq, Repr

/-! ## JSON -/

/-- JavaScript values that JSON can express.  A number is carried as its JSON
text; object properties are kept in creation order. -/
inductive JSValue where
  | null
  | bool (b : Bool)
  | num (lexeme : List Char)
  | str (s : String)
  | arr (elems : List JSValue)
  | obj (props : List (String × JSValue))

/-- Lower-case hexadecimal digit. -/
def hexDigit (n : Nat) : Char :=
  if n < 10 then Char.ofNat (48 + n) else Char.ofNat (87 + n)

/-- One character of `QuoteJSONString`: the quote, the backslash and the
control characters below U+0020 are escaped, every other character is copied. -/
def quoteChar (c : Char) : List Char :=
  if c = '"' then ['\\', '"']
  else if c = '\\' then ['\\', '\\']
  else if c.toNat = 8 then ['\\', 'b']
  else if c.toNat = 9 then ['\\', 't']
  else if c.toNat = 10 then ['\\', 'n']
  else if c.toNat = 12 then ['\\', 'f']
  else if c.toNat = 13 then ['\\', 'r']
  else if c.toNat < 32 then
    ['\\', 'u', '0', '0', hexDigit (c.toNat / 16), hexDigit (c.toNat % 16)]
  else [c]

/-- `QuoteJSONString` of ECMAScript. -/
def quoteJSONString (s : List Char) : List Char :=
  '"' :: (s.flatMap quoteChar ++ ['"'])

mutual
/-- `JSON.stringify` without indentation, as a list of characters. -/
def stringifyChars : JSValue → List Char
  | .null => ['n', 'u', 'l', 'l']
  | .bool true => ['t', 'r', 'u', 'e']
  | .bool false => ['f', 'a', 'l', 's', 'e']
  | .num l => l
  | .str s => quoteJSONString s.data
  | .arr [] => ['[', ']']
  | .arr (v :: vs) => '[' :: (stringifyChars v ++ stringifyElems vs)
  | .obj [] => ['{', '}']
  | .obj ((k, v) :: ps) =>
    '{' :: (quoteJSONString k.data ++ ':' :: (stringifyChars v ++ stringifyProps ps))
/-- The elements of an array after the first, and the closing bracket. -/
def stringifyElems : List JSValue → List Char
  | [] => [']']
  | v :: vs => ',' :: (stringifyChars v ++ stringifyElems vs)
/-- The properties of an object after the first, and the closing brace. -/
def stringifyProps : List (String × JSValue) → List Char
  | [] => ['}']
  | (k, v) :: ps =>
    ',' :: (quoteJSONString k.data ++ ':' :: (stringifyChars v ++ stringifyProps ps))
end

/-- `JSON.stringify(value)`. -/
def JSON.stringify (v : JSValue) : String := ⟨stringifyChars v⟩

/-- JSON white space: space, tab, line feed, carriage return. -/
def isJsonWs (c : Char) : Bool :=
  c.toNat = 32 || c.toNat = 9 || c.toNat = 10 || c.toNat = 13

/-- Skip JSON white space. -/
def skipWs (cs : List Char) : List Char := cs.dropWhile isJsonWs

/-- Value of a hexadecimal digit. -/
def hexVal (c : Char) : Option Nat :=
  if 48 ≤ c.toNat ∧ c.toNat ≤ 57 then some (c.toNat - 48)
  else if 97 ≤ c.toNat ∧ c.toNat ≤ 102 then some (c.toNat - 87)
  else if 65 ≤ c.toNat ∧ c.toNat ≤ 70 then some (c.toNat - 55)
  else none

/-- Four hexadecimal digits. -/
def parseHex4 : List Char → Option (Nat × List Char)
  | a :: b :: c :: d :: rest =>
    match hexVal a, hexVal b, hexVal c, hexVal d with
    | some x, some y, some z, some w => some (((x * 16 + y) * 16 + z) * 16 + w, rest)
    | _, _, _, _ => none
  | _ => none

/-- The part of a `\uXXXX` escape after the `u`.  A surrogate pair written as
two escapes gives one character; an unpaired surrogate has no counterpart in
the string model and is rejected. -/
def parseUnicodeEscape (cs : List Char) : Option (Char × List Char) :=
  match parseHex4 cs with
  | none => none
  | some (hi, rest) =>
    if 0xD800 ≤ hi ∧ hi ≤ 0xDBFF then
      match rest with
      | '\\' :: 'u' :: rest2 =>
        match parseHex4 rest2 with
        | none => none
        | some (lo, rest3) =>
          if 0xDC00 ≤ lo ∧ lo ≤ 0xDFFF then
            some (Char.ofNat (0x10000 + (hi - 0xD800) * 0x400 + (lo - 0xDC00)), rest3)
          else none
      | _ => none
    else if 0xDC00 ≤ hi ∧ hi ≤ 0xDFFF then none
    else some (Char.ofNat hi, rest)

/-- The characters of a JSON string after the opening quote, up to and
including the closing quote.  `acc` holds the characters read so far, last
first. -/
def parseStringBody : Nat → List Char → List Char → Option (String × List Char)
  | 0, _, _ => none
  | _ + 1, [], _ => none
  | fuel + 1, c :: cs, acc =>
    if c = '"' then some (⟨acc.reverse⟩, cs)
    else if c = '\\' then
      match cs with
      | [] => none
      | e :: rest =>
        if e = '"' then parseStringBody fuel rest ('"' :: acc)
        else if e = '\\' then parseStringBody fuel rest ('\\' :: acc)
        else if e = '/' then parseStringBody fuel rest ('/' :: acc)
        else if e = 'b' then parseStringBody fuel rest (Char.ofNat 8 :: acc)
        else if e = 'f' then parseStringBody fuel rest (Char.ofNat 12 :: acc)
        else if e = 'n' then parseStringBody fuel rest (Char.ofNat 10 :: acc)
        else if e = 'r' then parseStringBody fuel rest (Char.ofNat 13 :: acc)
        else if e = 't' then parseStringBody fuel rest (Char.ofNat 9 :: acc)
        else if e = 'u' then
          match parseUnicodeEscape rest with
          | none => none
          | some (ch, rest2) => parseStringBody fuel rest2 (ch :: acc)
        else none
    else if c.toNat < 32 then none
    else parseStringBody fuel cs (c :: acc)

/-- Digits `1`-`9`. -/
def isDigit19 (c : Char) : Bool := 49 ≤ c.toNat && c.toNat ≤ 57

/-- Optional exponent part of a JSON number. -/
def parseExponent (acc cs : List Char) : Option (List Char × List Char) :=
  match cs with
  | e :: rest =>
    if e = 'e' ∨ e = 'E' then
      let signed : List Char × List Char :=
        match rest with
        | s :: r => if s = '+' ∨ s = '-' then ([s], r) else ([], rest)
        | [] => ([], rest)
      let ds := signed.2.takeWhile Char.isDigit
      if ds = [] then none
      else some (acc ++ e :: signed.1 ++ ds, signed.2.dropWhile Char.isDigit)
    else some (acc, cs)
  | [] => some (acc, cs)

/-- Optional fraction part of a JSON number. -/
def parseFraction (acc cs : List Char) : Option (List Char × List Char) :=
  match cs with
  | d :: rest =>
    if d = '.' then
      let ds := rest.takeWhile Char.isDigit
      if ds = [] then none
      else parseExponent (acc ++ '.' :: ds) (rest.dropWhile Char.isDigit)
    else parseExponent acc cs
  | [] => parseExponent acc cs

/-- Integer part of a JSON number: `0`, or a digit `1`-`9` followed by digits. -/
def parseInteger (acc cs : List Char) : Option (List Char × List Char) :=
  match cs with
  | d :: rest =>
    if d = '0' then parseFraction (acc ++ ['0']) rest
    else if isDigit19 d then
      parseFraction (acc ++ cs.takeWhile Char.isDigit) (cs.dropWhile Char.isDigit)
    else none
  | [] => none

/-- A JSON number; the result is its text. -/
def parseNumber (cs : List Char) : Option (List Char × List Char) :=
  match cs with
  | s :: rest => if s = '-' then parseInteger ['-'] rest else parseInteger [] cs
  | [] => none

/-- Define property `k` on an object under construction: an existing
property keeps its place and takes the new value, a new one is appended. -/
def setProp (props : List (String × JSValue)) (k : String) (v : JSValue) :
    List (String × JSValue) :=
  if props.any (fun p => p.1 = k) then
    props.map (fun p => if p.1 = k then (k, v) else p)
  else props ++ [(k, v)]

mutual
/-- One JSON value, with leading white space. -/
def parseValue : Nat → List Char → Option (JSValue × List Char)
  | 0, _ => none
  | fuel + 1, cs =>
    match skipWs cs with
    | [] => none
    | c :: rest =>
      if c = '"' then
        match parseStringBody fuel rest [] with
        | none => none
        | some (s, r) => some (.str s, r)
      else if c = '[' then
        match skipWs rest with
        | [] => none
        | d :: r => if d = ']' then some (.arr [], r) else parseElements fuel (d :: r) []
      else if c = '{' then
        match skipWs rest with
        | [] => none
        | d :: r => if d = '}' then some (.obj [], r) else parseMembers fuel (d :: r) []
      else if c = 't' then
        match rest with
        | 'r' :: 'u' :: 'e' :: r => some (.bool true, r)
        | _ => none
      else if c = 'f' then
        match rest with
        | 'a' :: 'l' :: 's' :: 'e' :: r => some (.bool false, r)
        | _ => none
      else if c = 'n' then
        match rest with
        | 'u' :: 'l' :: 'l' :: r => some (.null, r)
        | _ => none
      else
        match parseNumber (c :: rest) with
        | none => none
        | some (l, r) => some (.num l, r)
/-- The elements of a non-empty array and the closing bracket. -/
def parseElements : Nat → List Char → List JSValue → Option (JSValue × List Char)
  | 0, _, _ => none
  | fuel + 1, cs, acc =>
    match parseValue fuel cs with
    | none => none
    | some (v, r) =>
      match skipWs r with
      | [] => none
      | d :: r2 =>
        if d = ',' then parseElements fuel r2 (acc ++ [v])
        else if d = ']' then some (.arr (acc ++ [v]), r2)
        else none
/-- The members of a non-empty object and the closing brace. -/
def parseMembers : Nat → List Char → List (String × JSValue) →
    Option (JSValue × List Char)
  | 0, _, _ => none
  | fuel + 1, cs, acc =>
    match skipWs cs with
    | [] => none
    | q :: r0 =>
      if q = '"' then
        match parseStringBody fuel r0 [] with
        | none => none
        | some (k, r1) =>
          match skipWs r1 with
          | [] => none
          | col :: r2 =>
            if col = ':' then
              match parseValue fuel r2 with
              | none => none
              | some (v, r3) =>
                match skipWs r3 with
                | [] => none
                | d :: r4 =>
                  if d = ',' then parseMembers fuel r4 (setProp acc k v)
                  else if d = '}' then some (.obj (setProp acc k v), r4)
                  else none
            else none
      else none
end

/-- `JSON.parse(text)`: `none` stands for the `SyntaxError` it throws.  Every
step of the parser spends one unit of fuel and at most two steps pass between
two characters read, so `2 * length + 2` never runs out on a text. -/
def JSON.parse (s : String) : Option JSValue :=
  match parseValue (2 * s.length + 2) s.data with
  | none => none
  | some (v, rest) => if skipWs rest = [] then some v else none

/-- The JavaScript object of a task record, properties in creation order. -/
def Task.toJS (t : Task) : JSValue :=
  .obj [("id", .str t.id), ("text", .str t.text), ("completed", .bool t.completed)]

/-- The JavaScript array of a task collection. -/
def tasksToJS (tasks : List Task) : JSValue := .arr (tasks.map Task.toJS)

/-! ## localStorage -/

/-- The `localStorage` entry under `STORAGE_KEY`.  `item` is the stored text
(`none`: no entry); `accepts v` tells whether `setItem(STORAGE_KEY, v)`
succeeds (it throws, e.g. on exceeded quota, when `accepts v = false`). -/
structure Storage where
  item : Option String
  accepts : String → Bool

/-- `DataManager.loadTasks`: the parsed entry; the empty array when there is no
entry, when the entry is the empty string (falsy), or when parsing throws. -/
def DataManager.loadTasks (st : Storage) : JSValue :=
  match st.item with
  | none => .arr []
  | some tasksJson =>
    if tasksJson = "" then .arr []
    else
      match JSON.parse tasksJson with
      | some v => v
      | none => .arr []

/-- The effect of `DataManager.saveTasks` on the storage entry: the write
happens when `setItem` succeeds; a thrown error is caught and the entry keeps
its value. -/
def DataManager.saveTasks (tasks : List Task) (st : Storage) : Storage :=
  let json := JSON.stringify (tasksToJS tasks)
  if st.accepts json then { st with item := some json } else st

/-! ## Application state and view -/

/-- A toast appended to the toast container. -/
structure Toast where
  message : String
  kind : String
deriving DecidableEq, Repr

/-- What a task card shows next to its checkbox: the static text span or the
edit field. -/
inductive CardContent where
  | span (text : String)
  | input (value : String)
deriving DecidableEq, Repr

/-- A task card built by `createTaskElement`.  `node` is the identity of the
DOM element, `task` the record captured by the card's event handlers. -/
structure TaskCard where
  node : Nat
  task : Task
  completedClass : Bool
  checked : Bool
  content : CardContent
  editing : Bool
  saveBtn : Bool
  editBtnLabel : String
deriving DecidableEq, Repr

/-- A `.filter-btn` element: its `data-filter` attribute and whether it
carries the class `active`. -/
structure FilterBtn where
  dataFilter : String
  active : Bool
deriving DecidableEq, Repr

/-- The state the script works on: its two module variables, the storage
entry and the DOM parts it touches. -/
structure AppState where
  tasks : List Task
  currentFilter : String
  storage : Storage
  addTaskInput : String
  cards : List TaskCard
  nextNode : Nat
  emptyStateHidden : Bool
  progressWidth : ℚ
  filterBtns : List FilterBtn
  toasts : List Toast
  renders : Nat

/-- `showToast(message, type)`: append a toast. -/
def showToast (message kind : String) (s : AppState) : AppState :=
  { s with toasts := s.toasts ++ [⟨message, kind⟩] }

/-- Round to the nearest integer, ties to the even one. -/
def roundHalfEven (y : ℚ) : ℤ :=
  let n := ⌊y⌋
  let r := y - n
  if r < 1 / 2 then n
  else if 1 / 2 < r then n + 1
  else if n % 2 = 0 then n
  else n + 1

/-- Round a rational to the nearest IEEE-754 double (53-bit significand,
ties to even): with `e` the exponent of the last place of `x`, the
significand `x / 2 ^ e` lies between `2 ^ 52` and `2 ^ 53` and is rounded to
an integer.  The exponent range is not bounded, so the result is the double
of the platform for magnitudes from `2 ^ (-1022)` up to the largest double;
the counts of a collection and their quotients lie well inside. -/
def toDouble (x : ℚ) : ℚ :=
  if x = 0 then 0
  else
    let e := Int.log 2 |x| - 52
    (roundHalfEven (x / (2 : ℚ) ^ e) : ℚ) * (2 : ℚ) ^ e

/-- The `/` of two Numbers. -/
def divDouble (a b : ℚ) : ℚ := toDouble (a / b)

/-- The `*` of two Numbers. -/
def mulDouble (a b : ℚ) : ℚ := toDouble (a * b)

/-- The percentage `renderProgressBar` computes from the whole collection:
`totalTasks === 0 ? 0 : (completedTasks / totalTasks) * 100`. -/
def progress (tasks : List Task) : ℚ :=
  let completedTasks := (tasks.filter (fun task => task.completed)).length
  let totalTasks := tasks.length
  if totalTasks = 0 then 0
  else mulDouble (divDouble (completedTasks : ℚ) (totalTasks : ℚ)) 100

/-- The computation of `progress` on the two counts. -/
def percent (completedTasks totalTasks : Nat) : ℚ :=
  if totalTasks = 0 then 0
  else toDouble (toDouble ((completedTasks : ℚ) / (totalTasks : ℚ)) * 100)

/-- `renderProgressBar`: set the width of the progress bar. -/
def renderProgressBar (s : AppState) : AppState :=
  { s with progressWidth := progress s.tasks }

/-- `createTaskElement(task)` for a fresh DOM node. -/
def createTaskElement (node : Nat) (task : Task) : TaskCard :=
  { node := node
    task := task
    completedClass := task.completed
    checked := task.completed
    content := .span task.text
    editing := false
    saveBtn := false
    editBtnLabel := "Edit" }

/-- The cards of the `forEach` loop in `renderTasks`, on consecutive fresh nodes. -/
def createTaskElements : Nat → List Task → List TaskCard
  | _, [] => []
  | node, task :: rest => createTaskElement node task :: createTaskElements (node + 1) rest

/-- The `filteredTasks` of `renderTasks`. -/
def filteredTasks (currentFilter : String) (tasks : List Task) : List Task :=
  if currentFilter = "active" then tasks.filter (fun task => !task.completed)
  else if currentFilter = "completed" then tasks.filter (fun task => task.completed)
  else tasks

/-- `updateFilterButtons`: exactly the buttons whose `data-filter` is the
current filter are active. -/
def updateFilterButtons (s : AppState) : AppState :=
  { s with filterBtns :=
      s.filterBtns.map (fun btn => { btn with active := decide (btn.dataFilter = s.currentFilter) }) }

/-- `renderTasks`: empty the list container, build one card per record of the
filtered view, then update the filter buttons and the progress bar.
`renders` counts the calls. -/
def renderTasks (s : AppState) : AppState :=
  let view := filteredTasks s.currentFilter s.tasks
  let s1 := { s with cards := [], renders := s.renders + 1 }
  let s2 :=
    if view.length = 0 then { s1 with emptyStateHidden := false }
    else
      { s1 with
        emptyStateHidden := true
        cards := createTaskElements s1.nextNode view
        nextNode := s1.nextNode + view.length }
  renderProgressBar (updateFilterButtons s2)

/-! ## CRUD operations -/

/-- `addTask(text)`; `now` and `random36` are what the clock and the random
source give to `generateUniqueId` in this call. -/
def addTask (now : Nat) (random36 : String) (text : String) (s : AppState) : AppState :=
  if jsTrim text = "" then
    showToast "Task description cannot be empty!" "error" s
  else
    let newTask : Task :=
      { id := generateUniqueId now random36, text := jsTrim text, completed := false }
    let s1 := { s with tasks := s.tasks ++ [newTask] }
    let s2 := { s1 with storage := DataManager.saveTasks s1.tasks s1.storage }
    let s3 := renderTasks s2
    let s4 := { s3 with addTaskInput := "" }
    showToast "Mission added to the matrix!" "success" s4

/-- `toggleTaskCompletion(id)`. -/
def toggleTaskCompletion (id : String) (s : AppState) : AppState :=
  let s1 := { s with
    tasks := s.tasks.map (fun (task : Task) =>
      if task.id = id then { task with completed := !task.completed } else task) }
  let s2 := { s1 with storage := DataManager.saveTasks s1.tasks s1.storage }
  let s3 := renderTasks s2
  showToast "Mission status updated!" "success" s3

/-- `editTask(id, newText)`. -/
def editTask (id newText : String) (s : AppState) : AppState :=
  if jsTrim newText = "" then
    showToast "Task description cannot be empty!" "error" s
  else
    let s1 := { s with
      tasks := s.tasks.map (fun (task : Task) =>
        if task.id = id then { task with text := jsTrim newText } else task) }
    let s2 := { s1 with storage := DataManager.saveTasks s1.tasks s1.storage }
    let s3 := renderTasks s2
    showToast "Mission updated!" "success" s3

/-- `deleteTask(id)`. -/
def deleteTask (id : String) (s : AppState) : AppState :=
  let s1 := { s with tasks := s.tasks.filter (fun task => task.id ≠ id) }
  let s2 := { s1 with storage := DataManager.saveTasks s1.tasks s1.storage }
  let s3 := renderTasks s2
  showToast "Mission eliminated!" "error" s3

/-! ## Event handlers of a task card -/

/-- The value of the card's `.editable-task-input`, when the card holds one. -/
def TaskCard.editInput (card : TaskCard) : Option String :=
  match card.content with
  | .input value => some value
  | .span _ => none

/-- Apply `f` to the card with DOM node `node` if it is in the list container. -/
def updateCard (node : Nat) (f : TaskCard → TaskCard) (s : AppState) : AppState :=
  { s with cards := s.cards.map (fun card => if card.node = node then f card else card) }

/-- The user types `value` into the edit field of the card `node`. -/
def typeInEditInput (node : Nat) (value : String) (s : AppState) : AppState :=
  updateCard node (fun card =>
    match card.content with
    | .input _ => { card with content := .input value }
    | .span _ => card) s

/-- The click handler of a card's edit button.  In edit mode it calls
`editTask` with the field's value and then drops the `editing` and `save-btn`
classes of the card it belongs to; the class changes reach the list
container only when that card is still in it.  Out of edit mode it puts the
card into edit mode; `taskTextSpan.replaceWith` has an effect only while the
span is in the card. -/
def editBtnClick (node : Nat) (s : AppState) : AppState :=
  match s.cards.find? (fun card => card.node = node) with
  | none => s
  | some card =>
    if card.editing then
      let s1 :=
        match card.editInput with
        | some value => editTask card.task.id value s
        | none => s
      updateCard node
        (fun c => { c with editing := false, editBtnLabel := "Edit", saveBtn := false }) s1
    else
      updateCard node
        (fun c =>
          { c with
            editing := true
            content :=
              match c.content with
              | .span _ => .input c.task.text
              | .input value => .input value
            editBtnLabel := "Save"
            saveBtn := true }) s

/-- The `keypress` handler of the edit field on Enter: `editBtn.click()`. -/
def editInputEnter (node : Nat) (s : AppState) : AppState := editBtnClick node s

/-- The `blur` handler of the edit field: re-render while the card is still
in edit mode. -/
def editInputBlur (node : Nat) (s : AppState) : AppState :=
  match s.cards.find? (fun card => card.node = node) with
  | none => s
  | some card => if card.editing && card.saveBtn then renderTasks s else s

/-! ## Sequences of calls -/

/-- One call of a CRUD operation, with the values the clock and the random
source supply when the call is an `addTask`. -/
inductive Op where
  | add (now : Nat) (random36 : String) (text : String)
  | toggle (id : String)
  | edit (id : String) (newText : String)
  | delete (id : String)
deriving DecidableEq, Repr

/-- Perform one call. -/
def step (s : AppState) : Op → AppState
  | .add now random36 text => addTask now random36 text s
  | .toggle id => toggleTaskCompletion id s
  | .edit id newText => editTask id newText s
  | .delete id => deleteTask id s

/-- Perform a sequence of calls, first to last. -/
def run (s : AppState) (ops : List Op) : AppState := ops.foldl step s

/-- One `addTask` call: the clock value, the random rendering and the text. -/
structure AddCall where
  now : Nat
  random36 : String
  text : String
deriving DecidableEq, Repr

/-- Perform a sequence of `addTask` calls, first to last. -/
def addAll (s : AppState) (calls : List AddCall) : AppState :=
  calls.foldl (fun st call => addTask call.now call.random36 call.text st) s

/-- The state when the script starts on a page with an empty list, three
filter buttons and an empty storage that accepts every write:
`tasks = []`, `currentFilter = 'all'`. -/
def startState : AppState :=
  { tasks := []
    currentFilter := "all"
    storage := { item := none, accepts := fun _ => true }
    addTaskInput := ""
    cards := []
    nextNode := 0
    emptyStateHidden := false
    progressWidth := 0
    filterBtns := [⟨"all", true⟩, ⟨"active", false⟩, ⟨"completed", false⟩]
    toasts := []
    renders := 0 }

/-- The collection after two `addTask` calls that find the clock at the same
millisecond and draw the same random number. -/
def collidingRun : AppState :=
  run startState [.add 1700000000000 "0.i" "Buy milk", .add 1700000000000 "0.i" "Walk dog"]

/-- The clock value and the random rendering of every `addTask` call of the
sequence that passes validation, in call order. -/
def validatedAdds : List Op → List (Nat × String)
  | [] => []
  | .add now random36 text :: ops =>
    if isBlank text then validatedAdds ops else (now, random36) :: validatedAdds ops
  | .toggle _ :: ops => validatedAdds ops
  | .edit _ _ :: ops => validatedAdds ops
  | .delete _ :: ops => validatedAdds ops

/-- Value of a radix-36 digit. -/
def val36 (c : Char) : Nat :=
  if c.toNat < 58 then c.toNat - 48 else c.toNat - 87

/-- The number a radix-36 rendering stands for. -/
def ofDigits36 (cs : List Char) : Nat := cs.foldl (fun a c => a * 36 + val36 c) 0

/-- The ids `generateUniqueId` returns in the sequence, in call order. -/
def generatedIds (ops : List Op) : List String :=
  (validatedAdds ops).map (fun call => generateUniqueId call.1 call.2)

/-- No validated `addTask` call of the sequence gets the id `id` from
`generateUniqueId`. -/
def neverGenerates (id : String) (ops : List Op) : Bool :=
  (generatedIds ops).all (fun g => g ≠ id)

/-- Three `addTask` calls, the second with a text of spaces only. -/
def demoCalls : List AddCall :=
  [⟨10, "0.a", " Buy milk "⟩, ⟨11, "0.b", "   "⟩, ⟨12, "0.c", "Walk dog"⟩]

/-- A collection of two records with different ids. -/
def twoTasks : AppState :=
  { startState with tasks := [⟨"a1", "old", true⟩, ⟨"b2", "other", false⟩] }

/-- A session: two adds, a toggle, an edit, a delete, an add. -/
def demoOps : List Op :=
  [.add 1700000000000 "0.i" "Buy milk", .add 1700000000001 "0.i" "Walk dog",
   .toggle "loyw3v28i", .edit "loyw3v29i" " Walk cat ", .delete "loyw3v28i",
   .add 1700000000002 "0.i" "Buy bread"]

/-- Four records, two of them completed. -/
def fourTasks : AppState :=
  { startState with
    currentFilter := "active"
    tasks := [⟨"1", "A", true⟩, ⟨"2", "B", false⟩, ⟨"3", "C", true⟩, ⟨"4", "D", false⟩] }

/-- Twenty-five records with different ids, the first seven completed. -/
def sevenOfTwentyFive : AppState :=
  { startState with
    tasks := (List.range 25).map
      (fun i => ({ id := toString36 i, text := "task", completed := decide (i < 7) } : Task)) }

/-- The list after rendering one stored task. -/
def oneCard : AppState :=
  renderTasks { startState with tasks := [⟨"a1", "Buy milk", false⟩] }

/-- The card of `oneCard` put into edit mode, with the field overwritten by
three spaces. -/
def blankEdit : AppState := typeInEditInput 0 "   " (editBtnClick 0 oneCard)

/-- The state after Enter is pressed in the blank edit field. -/
def blankCommit : AppState := editInputEnter 0 blankEdit

/-! ## Basic facts about the embedding -/

theorem dropWhile_all_iff (p : Char → Bool) (l : List Char) :
    (l.dropWhile p).all p = true ↔ l.all p = true := by
  induction l with
  | nil => simp
  | cons a l ih =>
    by_cases h : p a = true
    · simp [List.dropWhile, h, ih]
    · simp [List.dropWhile, h]

theorem trimEnd_eq_nil_iff (l : List Char) :
    trimEnd l = [] ↔ l.all isJsWhiteSpace = true := by
  simp [trimEnd, List.dropWhile_eq_nil_iff]

theorem jsTrim_eq_empty_iff (s : String) : jsTrim s = "" ↔ isBlank s = true := by
  unfold jsTrim isBlank trimStart
  rw [← dropWhile_all_iff isJsWhiteSpace s.data, ← trimEnd_eq_nil_iff]
  constructor
  · intro h
    have := congrArg String.data h
    simpa using this
  · intro h
    rw [h]

theorem head?_dropWhile_false (p : Char → Bool) (l : List Char) (c : Char)
    (h : (l.dropWhile p).head? = some c) : p c = false := by
  have := List.head?_dropWhile_not p l
  rw [h] at this
  exact this

theorem trimEnd_append (m : List Char) :
    m = trimEnd m ++ (m.reverse.takeWhile isJsWhiteSpace).reverse := by
  unfold trimEnd
  rw [← List.reverse_append, List.takeWhile_append_dropWhile, List.reverse_reverse]

theorem jsTrim_spec (s : String) :
    ∃ pre post : List Char,
      s.data = pre ++ (jsTrim s).data ++ post ∧
      pre.all isJsWhiteSpace = true ∧ post.all isJsWhiteSpace = true ∧
      (∀ c, (jsTrim s).data.head? = some c → isJsWhiteSpace c = false) ∧
      (∀ c, (jsTrim s).data.getLast? = some c → isJsWhiteSpace c = false) := by
  refine ⟨s.data.takeWhile isJsWhiteSpace,
    ((trimStart s.data).reverse.takeWhile isJsWhiteSpace).reverse, ?_, ?_, ?_, ?_, ?_⟩
  · have h1 := trimEnd_append (trimStart s.data)
    have h2 := List.takeWhile_append_dropWhile isJsWhiteSpace s.data
    unfold jsTrim
    dsimp only
    rw [List.append_assoc, ← h1]
    exact h2.symm
  · exact List.all_takeWhile
  · rw [List.all_reverse]
    exact List.all_takeWhile
  · intro c hc
    unfold jsTrim at hc
    dsimp only at hc
    have h1 := trimEnd_append (trimStart s.data)
    have hne : trimEnd (trimStart s.data) ≠ [] := by
      intro h
      rw [h] at hc
      cases hc
    have h3 : (trimStart s.data).head? = some c := by
      rw [h1, List.head?_append_of_ne_nil _ hne]
      exact hc
    exact head?_dropWhile_false isJsWhiteSpace s.data c h3
  · intro c hc
    unfold jsTrim trimEnd at hc
    dsimp only at hc
    rw [List.getLast?_reverse] at hc
    exact head?_dropWhile_false isJsWhiteSpace _ c hc

@[simp] theorem showToast_tasks (m k : String) (s : AppState) :
    (showToast m k s).tasks = s.tasks := rfl

@[simp] theorem showToast_storage (m k : String) (s : AppState) :
    (showToast m k s).storage = s.storage := rfl

@[simp] theorem renderTasks_tasks (s : AppState) : (renderTasks s).tasks = s.tasks := by
  unfold renderTasks renderProgressBar updateFilterButtons
  dsimp only
  split <;> rfl

@[simp] theorem renderTasks_storage (s : AppState) : (renderTasks s).storage = s.storage := by
  unfold renderTasks renderProgressBar updateFilterButtons
  dsimp only
  split <;> rfl

theorem addTask_tasks (now : Nat) (random36 text : String) (s : AppState) :
    (addTask now random36 text s).tasks =
      s.tasks ++ (if isBlank text = true then []
        else [{ id := generateUniqueId now random36, text := jsTrim text, completed := false }]) := by
  unfold addTask
  by_cases h : isBlank text = true
  · simp [(jsTrim_eq_empty_iff text).2 h, h]
  · have h2 : ¬ jsTrim text = "" := fun e => h ((jsTrim_eq_empty_iff text).1 e)
    simp [h2, h]

theorem toggle_tasks (id : String) (s : AppState) :
    (toggleTaskCompletion id s).tasks =
      s.tasks.map (fun (task : Task) =>
        if task.id = id then { task with completed := !task.completed } else task) := by
  simp [toggleTaskCompletion]

theorem editTask_tasks (id newText : String) (s : AppState) :
    (editTask id newText s).tasks =
      if isBlank newText = true then s.tasks
      else s.tasks.map (fun (task : Task) =>
        if task.id = id then { task with text := jsTrim newText } else task) := by
  unfold editTask
  by_cases h : isBlank newText = true
  · simp [(jsTrim_eq_empty_iff newText).2 h, h]
  · have h2 : ¬ jsTrim newText = "" := fun e => h ((jsTrim_eq_empty_iff newText).1 e)
    simp [h2, h]

theorem deleteTask_tasks (id : String) (s : AppState) :
    (deleteTask id s).tasks = s.tasks.filter (fun task => task.id ≠ id) := by
  simp [deleteTask]

theorem addAll_tasks (calls : List AddCall) (s : AppState) :
    (addAll s calls).tasks =
      s.tasks ++ (calls.filter (fun call => !isBlank call.text)).map
        (fun call => ({ id := generateUniqueId call.now call.random36
                        text := jsTrim call.text
                        completed := false } : Task)) := by
  induction calls generalizing s with
  | nil => simp [addAll]
  | cons call calls ih =>
    have hstep : addAll s (call :: calls) =
        addAll (addTask call.now call.random36 call.text s) calls := rfl
    rw [hstep, ih, addTask_tasks]
    by_cases h : isBlank call.text = true
    · simp [h]
    · simp [h]

/-! ## Adding tasks -/

/-- C1: starting from the empty collection, a sequence of `addTask` calls
yields exactly one record per call whose text is not blank, in call order,
each with the trimmed input as text and `completed = false`; the length is the
number of non-blank calls; a single `addTask` keeps the records already
present unchanged and in place (it appends at most one record at the end). -/
theorem addTask_sequence_from_empty (s0 : AppState) (h0 : s0.tasks = [])
    (calls : List AddCall) :
    (addAll s0 calls).tasks =
        (calls.filter (fun call => !isBlank call.text)).map
          (fun call => ({ id := generateUniqueId call.now call.random36
                          text := jsTrim call.text
                          completed := false } : Task))
    ∧ (addAll s0 calls).tasks.length = calls.countP (fun call => !isBlank call.text)
    ∧ (∀ (s : AppState) (call : AddCall),
        (addTask call.now call.random36 call.text s).tasks =
          s.tasks ++ (if isBlank call.text = true then []
            else [{ id := generateUniqueId call.now call.random36
                    text := jsTrim call.text
                    completed := false }])) := by
  have h := addAll_tasks calls s0
  rw [h0, List.nil_append] at h
  refine ⟨h, ?_, fun s call => addTask_tasks _ _ _ s⟩
  rw [h, List.length_map, List.countP_eq_length_filter]

/-- Instance of C1: three calls from the start state, one of them blank, leave two records. -/
theorem addTask_sequence_from_empty_witness :
    startState.tasks = [] ∧
    (addAll startState demoCalls).tasks =
      [⟨"aa", "Buy milk", false⟩, ⟨"cc", "Walk dog", false⟩] :=
  ⟨rfl, (addTask_sequence_from_empty startState rfl demoCalls).1.trans (by decide)⟩

/-- C2: a blank text is rejected by `addTask` and by `editTask` before any
mutation: the collection is the same list, the storage entry is untouched, and
the only effect is the failure toast. -/
theorem blank_text_rejected (s : AppState) (now : Nat) (random36 id text : String)
    (hblank : isBlank text = true) :
    (addTask now random36 text s).tasks = s.tasks
    ∧ (addTask now random36 text s).storage = s.storage
    ∧ addTask now random36 text s =
        { s with toasts := s.toasts ++ [⟨"Task description cannot be empty!", "error"⟩] }
    ∧ (editTask id text s).tasks = s.tasks
    ∧ (editTask id text s).storage = s.storage
    ∧ editTask id text s =
        { s with toasts := s.toasts ++ [⟨"Task description cannot be empty!", "error"⟩] } := by
  have ht : jsTrim text = "" := (jsTrim_eq_empty_iff text).2 hblank
  have ha : addTask now random36 text s =
      showToast "Task description cannot be empty!" "error" s := by
    unfold addTask
    rw [if_pos ht]
  have he : editTask id text s =
      showToast "Task description cannot be empty!" "error" s := by
    unfold editTask
    rw [if_pos ht]
  rw [ha, he]
  exact ⟨rfl, rfl, rfl, rfl, rfl, rfl⟩

/-- Instance of C2: three spaces are rejected by `addTask` and by `editTask`. -/
theorem blank_text_rejected_witness :
    isBlank "   " = true ∧
    (addTask 10 "0.a" "   " collidingRun).tasks = collidingRun.tasks ∧
    (editTask "loyw3v28i" "   " collidingRun).storage = collidingRun.storage :=
  ⟨by decide,
   (blank_text_rejected collidingRun 10 "0.a" "loyw3v28i" "   " (by decide)).1,
   (blank_text_rejected collidingRun 10 "0.a" "loyw3v28i" "   " (by decide)).2.2.2.2.1⟩

/-! ## Toggling, editing, deleting -/

theorem map_eq_self_of_no_match (f : Task → Task) (id : String) (tasks : List Task)
    (h : ∀ t ∈ tasks, t.id ≠ id) :
    tasks.map (fun (task : Task) => if task.id = id then f task else task) = tasks := by
  induction tasks with
  | nil => rfl
  | cons t ts ih =>
    have h1 : t.id ≠ id := h t (List.mem_cons_self t ts)
    have h2 : ∀ u ∈ ts, u.id ≠ id := fun u hu => h u (List.mem_cons_of_mem t hu)
    simp only [List.map_cons, if_neg h1, ih h2]

/-- C3: `toggleTaskCompletion(id)` keeps the length and, position by position,
keeps id and text and negates `completed` exactly on the records whose id is
`id`; the collection is unchanged when no record matches; two toggles with
the same id give back the original collection. -/
theorem toggleTaskCompletion_spec (s : AppState) (id : String) :
    (toggleTaskCompletion id s).tasks.length = s.tasks.length
    ∧ List.Forall₂
        (fun (before after : Task) =>
          after.id = before.id ∧ after.text = before.text ∧
          after.completed = (if before.id = id then !before.completed else before.completed))
        s.tasks (toggleTaskCompletion id s).tasks
    ∧ ((∀ t ∈ s.tasks, t.id ≠ id) → (toggleTaskCompletion id s).tasks = s.tasks)
    ∧ (toggleTaskCompletion id (toggleTaskCompletion id s)).tasks = s.tasks := by
  refine ⟨?_, ?_, ?_, ?_⟩
  · rw [toggle_tasks, List.length_map]
  · rw [toggle_tasks, List.forall₂_map_right_iff]
    apply List.forall₂_same.2
    intro t _
    by_cases h : t.id = id <;> simp [h]
  · intro h
    rw [toggle_tasks]
    exact map_eq_self_of_no_match _ id s.tasks h
  · rw [toggle_tasks, toggle_tasks, List.map_map]
    conv_rhs => rw [← List.map_id s.tasks]
    apply List.map_congr_left
    intro t _
    by_cases h : t.id = id
    · cases t
      simp only at h
      subst h
      simp
    · simp [h]

/-- Instance of C3: a toggle with an unknown id changes nothing; two toggles with a stored id cancel. -/
theorem toggleTaskCompletion_spec_witness :
    (∀ t ∈ collidingRun.tasks, t.id ≠ "zz") ∧
    (toggleTaskCompletion "zz" collidingRun).tasks = collidingRun.tasks ∧
    (toggleTaskCompletion "loyw3v28i" (toggleTaskCompletion "loyw3v28i" collidingRun)).tasks =
      collidingRun.tasks :=
  ⟨by decide,
   (toggleTaskCompletion_spec collidingRun "zz").2.2.1 (by decide),
   (toggleTaskCompletion_spec collidingRun "loyw3v28i").2.2.2⟩

/-- C4: for a text that is not blank, `editTask(id, newText)` keeps the length
and, position by position, keeps id and `completed` and sets the text to the
trimmed `newText` exactly on the records whose id is `id`; every other record
keeps its text.  The trimmed form of `"  new  "` is `"new"`; in general it is
`newText` without a leading and a trailing run of white space, and it neither
starts nor ends with white space. -/
theorem editTask_spec (s : AppState) (id newText : String)
    (hvalid : jsTrim newText ≠ "") :
    (editTask id newText s).tasks.length = s.tasks.length
    ∧ List.Forall₂
        (fun (before after : Task) =>
          after.id = before.id ∧ after.completed = before.completed ∧
          after.text = (if before.id = id then jsTrim newText else before.text))
        s.tasks (editTask id newText s).tasks
    ∧ jsTrim "  new  " = "new"
    ∧ (∃ pre post : List Char,
        newText.data = pre ++ (jsTrim newText).data ++ post ∧
        pre.all isJsWhiteSpace = true ∧ post.all isJsWhiteSpace = true ∧
        (∀ c, (jsTrim newText).data.head? = some c → isJsWhiteSpace c = false) ∧
        (∀ c, (jsTrim newText).data.getLast? = some c → isJsWhiteSpace c = false)) := by
  have hb : ¬ isBlank newText = true := fun h => hvalid ((jsTrim_eq_empty_iff newText).2 h)
  refine ⟨?_, ?_, by decide, jsTrim_spec newText⟩
  · rw [editTask_tasks, if_neg hb, List.length_map]
  · rw [editTask_tasks, if_neg hb, List.forall₂_map_right_iff]
    apply List.forall₂_same.2
    intro t _
    by_cases h : t.id = id <;> simp [h]

/-- Instance of C4: editing a record of `twoTasks` with the text `"  new  "`. -/
theorem editTask_spec_witness :
    jsTrim "  new  " ≠ "" ∧
    (editTask "a1" "  new  " twoTasks).tasks.length = twoTasks.tasks.length ∧
    jsTrim "  new  " = "new" :=
  ⟨by decide,
   (editTask_spec twoTasks "a1" "  new  " (by decide)).1,
   (editTask_spec twoTasks "a1" "  new  " (by decide)).2.2.1⟩

theorem countP_id_eq_one (id : String) (tasks : List Task)
    (hnodup : (tasks.map Task.id).Nodup) (hmem : ∃ t ∈ tasks, t.id = id) :
    tasks.countP (fun t => t.id = id) = 1 := by
  induction tasks with
  | nil => obtain ⟨t, ht, _⟩ := hmem; cases ht
  | cons a l ih =>
    rw [List.map_cons, List.nodup_cons] at hnodup
    by_cases ha : a.id = id
    · have hzero : l.countP (fun t => t.id = id) = 0 := by
        rw [List.countP_eq_zero]
        intro t ht hid
        have hid2 : t.id = id := by simpa using hid
        exact hnodup.1 (List.mem_map.2 ⟨t, ht, hid2.trans ha.symm⟩)
      simp [List.countP_cons, ha, hzero]
    · have hmem2 : ∃ t ∈ l, t.id = id := by
        obtain ⟨t, ht, hid⟩ := hmem
        rcases List.mem_cons.1 ht with h | h
        · exact absurd (h ▸ hid) ha
        · exact ⟨t, h, hid⟩
      simp [List.countP_cons, ha, ih hnodup.2 hmem2]

theorem filter_ne_length (id : String) (tasks : List Task) :
    (tasks.filter (fun task => task.id ≠ id)).length + tasks.countP (fun t => t.id = id) =
      tasks.length := by
  induction tasks with
  | nil => rfl
  | cons a l ih =>
    by_cases ha : a.id = id
    · simp only [ne_eq, decide_not] at ih
      simp [List.filter_cons, List.countP_cons, ha]
      omega
    · simp only [ne_eq, decide_not] at ih
      simp [List.filter_cons, List.countP_cons, ha]
      omega

theorem map_id_of_preserving (f : Task → Task) (hf : ∀ t, (f t).id = t.id)
    (id : String) (tasks : List Task) :
    (tasks.map (fun (task : Task) => if task.id = id then f task else task)).map Task.id =
      tasks.map Task.id := by
  rw [List.map_map]
  apply List.map_congr_left
  intro t _
  by_cases h : t.id = id <;> simp [h, hf]

theorem run_cons (s : AppState) (op : Op) (ops : List Op) :
    run s (op :: ops) = run (step s op) ops := rfl

theorem step_add_ids (s : AppState) (now : Nat) (random36 text : String) :
    (step s (.add now random36 text)).tasks.map Task.id =
      s.tasks.map Task.id ++
        (if isBlank text = true then [] else [generateUniqueId now random36]) := by
  simp only [step, addTask_tasks]
  by_cases hb : isBlank text = true <;> simp [hb]

theorem step_toggle_ids (s : AppState) (id : String) :
    (step s (.toggle id)).tasks.map Task.id = s.tasks.map Task.id := by
  simp only [step, toggle_tasks]
  exact map_id_of_preserving (fun task => { task with completed := !task.completed })
    (fun _ => rfl) id s.tasks

theorem step_edit_ids (s : AppState) (id newText : String) :
    (step s (.edit id newText)).tasks.map Task.id = s.tasks.map Task.id := by
  simp only [step, editTask_tasks]
  split
  · rfl
  · exact map_id_of_preserving (fun task => { task with text := jsTrim newText })
      (fun _ => rfl) id s.tasks

theorem step_delete_ids (s : AppState) (id : String) :
    ((step s (.delete id)).tasks.map Task.id).Sublist (s.tasks.map Task.id) := by
  simp only [step, deleteTask_tasks]
  exact (List.filter_sublist s.tasks).map Task.id

theorem not_mem_generatedIds (id : String) (ops : List Op)
    (h : neverGenerates id ops = true) : id ∉ generatedIds ops := by
  intro hmem
  simp only [neverGenerates, List.all_eq_true, decide_eq_true_eq] at h
  exact h id hmem rfl

theorem run_id_absent (id : String) (ops : List Op) :
    ∀ s : AppState, id ∉ s.tasks.map Task.id ++ generatedIds ops →
      id ∉ (run s ops).tasks.map Task.id := by
  induction ops with
  | nil =>
    intro s h
    simpa [generatedIds, validatedAdds, run] using h
  | cons op ops ih =>
    intro s h
    rw [run_cons]
    apply ih
    cases op with
    | add now random36 text =>
      rw [step_add_ids]
      by_cases hb : isBlank text = true
      · simpa [generatedIds, validatedAdds, hb] using h
      · simpa [generatedIds, validatedAdds, hb, or_assoc] using h
    | toggle id2 =>
      rw [step_toggle_ids]
      simpa [generatedIds, validatedAdds] using h
    | edit id2 newText =>
      rw [step_edit_ids]
      simpa [generatedIds, validatedAdds] using h
    | delete id2 =>
      have h2 : id ∉ s.tasks.map Task.id ++ generatedIds ops := by
        simpa [generatedIds, validatedAdds] using h
      intro hmem
      apply h2
      rcases List.mem_append.1 hmem with hm | hm
      · exact List.mem_append_left _ ((step_delete_ids s id2).subset hm)
      · exact List.mem_append_right _ hm

/-- C5: on a collection whose ids are pairwise distinct, `deleteTask(id)`
shortens the collection by exactly 1 when a record with that id is present
and leaves it unchanged when none is; the survivors are the records with
another id, unchanged and in their relative order, and their ids are still
pairwise distinct; no record with that id remains, also after any later
sequence of calls in which `generateUniqueId` does not return that id again,
and every toggle, edit or delete with the same id after such a sequence
(the empty one included) leaves the collection as it is. -/
theorem deleteTask_spec (s : AppState) (id : String)
    (hdistinct : (s.tasks.map Task.id).Nodup) :
    ((∃ t ∈ s.tasks, t.id = id) → (deleteTask id s).tasks.length + 1 = s.tasks.length)
    ∧ ((∀ t ∈ s.tasks, t.id ≠ id) → (deleteTask id s).tasks = s.tasks)
    ∧ (deleteTask id s).tasks.Sublist s.tasks
    ∧ (∀ t, t ∈ (deleteTask id s).tasks ↔ t ∈ s.tasks ∧ t.id ≠ id)
    ∧ ((deleteTask id s).tasks.map Task.id).Nodup
    ∧ (∀ ops : List Op, neverGenerates id ops = true →
        (∀ t ∈ (run (deleteTask id s) ops).tasks, t.id ≠ id)
        ∧ (toggleTaskCompletion id (run (deleteTask id s) ops)).tasks =
            (run (deleteTask id s) ops).tasks
        ∧ (∀ newText, (editTask id newText (run (deleteTask id s) ops)).tasks =
            (run (deleteTask id s) ops).tasks)
        ∧ (deleteTask id (run (deleteTask id s) ops)).tasks =
            (run (deleteTask id s) ops).tasks) := by
  have hgone : ∀ t ∈ (deleteTask id s).tasks, t.id ≠ id := by
    intro t ht
    rw [deleteTask_tasks, List.mem_filter] at ht
    simpa using ht.2
  refine ⟨?_, ?_, ?_, ?_, ?_, ?_⟩
  · intro hmem
    have h := filter_ne_length id s.tasks
    rw [countP_id_eq_one id s.tasks hdistinct hmem] at h
    rw [deleteTask_tasks]
    exact h
  · intro h
    rw [deleteTask_tasks, List.filter_eq_self]
    intro t ht
    simpa using h t ht
  · rw [deleteTask_tasks]
    exact List.filter_sublist s.tasks
  · intro t
    rw [deleteTask_tasks, List.mem_filter]
    simp
  · rw [deleteTask_tasks]
    exact hdistinct.sublist ((List.filter_sublist s.tasks).map Task.id)
  · intro ops hops
    have habsent : id ∉ (run (deleteTask id s) ops).tasks.map Task.id := by
      apply run_id_absent id ops (deleteTask id s)
      intro hmem
      rcases List.mem_append.1 hmem with hm | hm
      · obtain ⟨t, ht, hid⟩ := List.mem_map.1 hm
        exact hgone t ht hid
      · exact not_mem_generatedIds id ops hops hm
    have hlater : ∀ t ∈ (run (deleteTask id s) ops).tasks, t.id ≠ id := by
      intro t ht hid
      exact habsent (List.mem_map.2 ⟨t, ht, hid⟩)
    refine ⟨hlater, ?_, ?_, ?_⟩
    · rw [toggle_tasks]
      exact map_eq_self_of_no_match _ id _ hlater
    · intro newText
      rw [editTask_tasks]
      split
      · rfl
      · exact map_eq_self_of_no_match _ id _ hlater
    · rw [deleteTask_tasks, List.filter_eq_self]
      intro t ht
      simpa using hlater t ht

/-- Instance of C5: deleting from `twoTasks`, whose ids are distinct, and
deleting the same id again after the session `demoOps`. -/
theorem deleteTask_spec_witness :
    (twoTasks.tasks.map Task.id).Nodup ∧ (∃ t ∈ twoTasks.tasks, t.id = "a1") ∧
    (deleteTask "a1" twoTasks).tasks.length + 1 = twoTasks.tasks.length ∧
    (∀ t ∈ twoTasks.tasks, t.id ≠ "zz") ∧
    (deleteTask "zz" twoTasks).tasks = twoTasks.tasks ∧
    neverGenerates "a1" demoOps = true ∧
    (deleteTask "a1" (run (deleteTask "a1" twoTasks) demoOps)).tasks =
      (run (deleteTask "a1" twoTasks) demoOps).tasks :=
  ⟨by decide, by decide,
   (deleteTask_spec twoTasks "a1" (by decide)).1 (by decide),
   by decide,
   (deleteTask_spec twoTasks "zz" (by decide)).2.1 (by decide),
   by decide,
   ((deleteTask_spec twoTasks "a1" (by decide)).2.2.2.2.2 demoOps (by decide)).2.2.2⟩

/-! ## Uniqueness of ids -/

theorem val36_digit36 : ∀ d, d < 36 → val36 (digit36 d) = d := by decide

theorem toDigits36_acc (fuel : Nat) :
    ∀ (n : Nat) (acc : List Char), toDigits36 fuel n acc = toDigits36 fuel n [] ++ acc := by
  induction fuel with
  | zero => intro n acc; rfl
  | succ f ih =>
    intro n acc
    unfold toDigits36
    split
    · rfl
    · rw [ih (n / 36) (digit36 (n % 36) :: acc), ih (n / 36) [digit36 (n % 36)]]
      simp

theorem ofDigits36_append_singleton (cs : List Char) (c : Char) :
    ofDigits36 (cs ++ [c]) = ofDigits36 cs * 36 + val36 c := by
  simp [ofDigits36]

theorem ofDigits36_toDigits36 (fuel : Nat) :
    ∀ n : Nat, n < fuel → ofDigits36 (toDigits36 fuel n []) = n := by
  induction fuel with
  | zero => intro n h; omega
  | succ f ih =>
    intro n h
    unfold toDigits36
    split
    · rename_i hlt
      simp [ofDigits36, val36_digit36 n hlt]
    · rename_i hge
      rw [toDigits36_acc, ofDigits36_append_singleton, ih (n / 36) (by omega),
        val36_digit36 _ (Nat.mod_lt _ (by decide))]
      omega

theorem toString36_injective : Function.Injective toString36 := by
  intro a b h
  have h2 : ofDigits36 (toString36 a).data = ofDigits36 (toString36 b).data := by rw [h]
  simp only [toString36] at h2
  rw [ofDigits36_toDigits36 _ a (by omega), ofDigits36_toDigits36 _ b (by omega)] at h2
  exact h2

theorem generateUniqueId_inj (now1 now2 : Nat) (r1 r2 : String)
    (hlen : (toString36 now1).length = (toString36 now2).length)
    (h : generateUniqueId now1 r1 = generateUniqueId now2 r2) :
    now1 = now2 ∧ substr2 r1 = substr2 r2 := by
  unfold generateUniqueId at h
  have hd := congrArg String.data h
  simp only [String.data_append] at hd
  have hl : (toString36 now1).data.length = (toString36 now2).data.length := hlen
  obtain ⟨h1, h2⟩ := List.append_inj hd hl
  exact ⟨toString36_injective (String.ext h1), String.ext h2⟩

theorem toDigits36_length (k : Nat) :
    ∀ (n fuel : Nat), n < fuel → 36 ^ k ≤ n → n < 36 ^ (k + 1) →
      (toDigits36 fuel n []).length = k + 1 := by
  induction k with
  | zero =>
    intro n fuel hf _ h2
    obtain ⟨f, rfl⟩ : ∃ f, fuel = f + 1 := ⟨fuel - 1, by omega⟩
    unfold toDigits36
    rw [if_pos (by simpa using h2)]
    rfl
  | succ k ih =>
    intro n fuel hf h1 h2
    obtain ⟨f, rfl⟩ : ∃ f, fuel = f + 1 := ⟨fuel - 1, by omega⟩
    have hpos : 0 < 36 ^ k := Nat.pos_of_ne_zero (by positivity)
    have hge : ¬ n < 36 := by
      rw [pow_succ] at h1
      omega
    unfold toDigits36
    rw [if_neg hge, toDigits36_acc, List.length_append, List.length_singleton]
    have hlo : 36 ^ k ≤ n / 36 := by
      rw [Nat.le_div_iff_mul_le (by decide)]
      rw [pow_succ] at h1
      exact h1
    have hhi : n / 36 < 36 ^ (k + 1) := by
      rw [Nat.div_lt_iff_lt_mul (by decide)]
      rw [pow_succ] at h2
      exact h2
    rw [ih (n / 36) f (by omega) hlo hhi]

/-- A clock value of `k + 1` radix-36 digits renders to `k + 1` characters;
the values of `Date.now()` from 1972 to 2059 have eight digits. -/
theorem toString36_length (k n : Nat) (h1 : 36 ^ k ≤ n) (h2 : n < 36 ^ (k + 1)) :
    (toString36 n).length = k + 1 :=
  toDigits36_length k n (n + 1) (by omega) h1 h2

theorem run_ids_nodup_of_generated (ops : List Op) :
    ∀ s : AppState, (s.tasks.map Task.id ++ generatedIds ops).Nodup →
      ((run s ops).tasks.map Task.id).Nodup := by
  induction ops with
  | nil =>
    intro s h
    simpa [generatedIds, validatedAdds, run] using h
  | cons op ops ih =>
    intro s h
    rw [run_cons]
    apply ih
    cases op with
    | add now random36 text =>
      rw [step_add_ids]
      by_cases hb : isBlank text = true
      · simpa [generatedIds, validatedAdds, hb] using h
      · simpa [generatedIds, validatedAdds, hb] using h
    | toggle id =>
      rw [step_toggle_ids]
      simpa [generatedIds, validatedAdds] using h
    | edit id newText =>
      rw [step_edit_ids]
      simpa [generatedIds, validatedAdds] using h
    | delete id =>
      have h2 : (s.tasks.map Task.id ++ generatedIds ops).Nodup := by
        simpa [generatedIds, validatedAdds] using h
      exact h2.sublist ((step_delete_ids s id).append (List.Sublist.refl _))

theorem generatedIds_nodup (ops : List Op) (digits : Nat)
    (hlen : ∀ call ∈ validatedAdds ops, (toString36 call.1).length = digits)
    (hnorepeat : ((validatedAdds ops).map (fun call => (call.1, substr2 call.2))).Nodup) :
    (generatedIds ops).Nodup := by
  have hnd : (validatedAdds ops).Nodup := List.Nodup.of_map _ hnorepeat
  unfold generatedIds
  apply List.Nodup.map_on _ hnd
  intro a ha b hb hab
  have hl : (toString36 a.1).length = (toString36 b.1).length := by
    rw [hlen a ha, hlen b hb]
  obtain ⟨h1, h2⟩ := generateUniqueId_inj a.1 b.1 a.2 b.2 hl hab
  have hpair : (a.1, substr2 a.2) = (b.1, substr2 b.2) := by rw [h1, h2]
  exact List.inj_on_of_nodup_map hnorepeat ha hb hpair

/-- C6, the claim as stated fails: two `addTask` calls that read the same
clock value and draw the same random number store two records with the same
id. -/
theorem ids_collide_on_equal_clock_and_random :
    startState.tasks = [] ∧
    ¬ ((run startState [.add 1700000000000 "0.i" "Buy milk", .add 1700000000000 "0.i" "Walk dog"]).tasks.map
        Task.id).Nodup := by
  decide

/-- Clock values whose radix-36 renderings differ in length can give the same
id with different random digits: `"1" ++ "0x"` and `"10" ++ "x"`. -/
theorem ids_collide_on_different_clock_lengths :
    generateUniqueId 1 "0.0x" = generateUniqueId 36 "0.x" := by
  decide

/-- C6, amended: in every collection reached from the empty collection by
`addTask`, `toggleTaskCompletion`, `editTask` and `deleteTask` calls the ids
are pairwise distinct, provided the clock values read by the `addTask` calls
that pass validation have radix-36 renderings of one length and no two of
those calls get both the same clock value and the same random digits (the
rendering of `Math.random()` from index 2 on). -/
theorem ids_distinct_of_distinct_draws (s0 : AppState) (h0 : s0.tasks = [])
    (ops : List Op) (digits : Nat)
    (hlen : ∀ call ∈ validatedAdds ops, (toString36 call.1).length = digits)
    (hnorepeat : ((validatedAdds ops).map (fun call => (call.1, substr2 call.2))).Nodup) :
    ((run s0 ops).tasks.map Task.id).Nodup := by
  apply run_ids_nodup_of_generated ops s0
  rw [h0, List.map_nil, List.nil_append]
  exact generatedIds_nodup ops digits hlen hnorepeat

/-- Instance of C6 (amended): the session `demoOps`, whose three validated
adds read three different clock values of eight radix-36 digits. -/
theorem ids_distinct_of_distinct_draws_witness :
    startState.tasks = [] ∧
    (∀ call ∈ validatedAdds demoOps, (toString36 call.1).length = 8) ∧
    ((validatedAdds demoOps).map (fun call => (call.1, substr2 call.2))).Nodup ∧
    ((run startState demoOps).tasks.map Task.id).Nodup :=
  ⟨rfl, by decide, by decide,
   ids_distinct_of_distinct_draws startState rfl demoOps 8 (by decide) (by decide)⟩

/-! ## The rendered view -/

theorem createTaskElements_task (tasks : List Task) (node : Nat) :
    (createTaskElements node tasks).map TaskCard.task = tasks := by
  induction tasks generalizing node with
  | nil => rfl
  | cons t ts ih => simp [createTaskElements, createTaskElement, ih]

theorem createTaskElements_content (tasks : List Task) (node : Nat) :
    (createTaskElements node tasks).map TaskCard.content =
      tasks.map (fun task => CardContent.span task.text) := by
  induction tasks generalizing node with
  | nil => rfl
  | cons t ts ih => simp [createTaskElements, createTaskElement, ih]

theorem renderTasks_cards (s : AppState) :
    (renderTasks s).cards =
      createTaskElements s.nextNode (filteredTasks s.currentFilter s.tasks) := by
  unfold renderTasks renderProgressBar updateFilterButtons
  dsimp only
  split
  · rename_i h
    rw [List.length_eq_zero.1 h]
    rfl
  · rfl

theorem renderTasks_card_texts (s : AppState) :
    (renderTasks s).cards.map (fun card => card.task.text) =
      (filteredTasks s.currentFilter s.tasks).map Task.text := by
  have h : (renderTasks s).cards.map (fun card => card.task.text) =
      ((renderTasks s).cards.map TaskCard.task).map Task.text := by
    rw [List.map_map]
    rfl
  rw [h, renderTasks_cards, createTaskElements_task]

theorem renderTasks_progressWidth (s : AppState) :
    (renderTasks s).progressWidth = progress s.tasks := by
  unfold renderTasks renderProgressBar updateFilterButtons
  dsimp only
  split <;> rfl

/-- C7: the cards `renderTasks` builds show, in stored order, exactly the
records with `completed = false` for the filter `active`, exactly those with
`completed = true` for `completed`, and the whole collection for `all`; the
view is a subsequence of the collection, and on `[A, B (completed), C]` it is
`[A, C]`, `[B]` and `[A, B, C]`. -/
theorem renderTasks_filtered_view (s : AppState) :
    (renderTasks { s with currentFilter := "active" }).cards.map TaskCard.task =
        s.tasks.filter (fun task => task.completed = false)
    ∧ (renderTasks { s with currentFilter := "completed" }).cards.map TaskCard.task =
        s.tasks.filter (fun task => task.completed = true)
    ∧ (renderTasks { s with currentFilter := "all" }).cards.map TaskCard.task = s.tasks
    ∧ (∀ f : String,
        (renderTasks { s with currentFilter := f }).cards.map TaskCard.content =
          ((renderTasks { s with currentFilter := f }).cards.map TaskCard.task).map
            (fun task => CardContent.span task.text))
    ∧ (∀ f : String,
        ((renderTasks { s with currentFilter := f }).cards.map TaskCard.task).Sublist s.tasks)
    ∧ (∀ t, t ∈ (renderTasks { s with currentFilter := "active" }).cards.map TaskCard.task ↔
        t ∈ s.tasks ∧ t.completed = false)
    ∧ (∀ t, t ∈ (renderTasks { s with currentFilter := "completed" }).cards.map TaskCard.task ↔
        t ∈ s.tasks ∧ t.completed = true)
    ∧ (let abc : List Task := [⟨"1", "A", false⟩, ⟨"2", "B", true⟩, ⟨"3", "C", false⟩]
       ((renderTasks { s with tasks := abc, currentFilter := "active" }).cards.map
          (fun card => card.task.text) = ["A", "C"])
       ∧ ((renderTasks { s with tasks := abc, currentFilter := "completed" }).cards.map
          (fun card => card.task.text) = ["B"])
       ∧ ((renderTasks { s with tasks := abc, currentFilter := "all" }).cards.map
          (fun card => card.task.text) = ["A", "B", "C"])) := by
  have hact : (renderTasks { s with currentFilter := "active" }).cards.map TaskCard.task =
      s.tasks.filter (fun task => task.completed = false) := by
    rw [renderTasks_cards, createTaskElements_task]
    simp [filteredTasks]
  have hcom : (renderTasks { s with currentFilter := "completed" }).cards.map TaskCard.task =
      s.tasks.filter (fun task => task.completed = true) := by
    rw [renderTasks_cards, createTaskElements_task]
    have hne : ¬ ("completed" = "active") := by decide
    simp [filteredTasks, hne]
  refine ⟨hact, hcom, ?_, ?_, ?_, ?_, ?_, ?_⟩
  · rw [renderTasks_cards, createTaskElements_task]
    have h1 : ¬ ("all" = "active") := by decide
    have h2 : ¬ ("all" = "completed") := by decide
    simp [filteredTasks, h1, h2]
  · intro f
    rw [renderTasks_cards, createTaskElements_task, createTaskElements_content]
  · intro f
    rw [renderTasks_cards, createTaskElements_task]
    unfold filteredTasks
    dsimp only
    split
    · exact List.filter_sublist _
    · split
      · exact List.filter_sublist _
      · exact List.Sublist.refl _
  · intro t
    rw [hact, List.mem_filter]
    simp
  · intro t
    rw [hcom, List.mem_filter]
    simp
  · dsimp only
    refine ⟨?_, ?_, ?_⟩
    · rw [renderTasks_card_texts]
      dsimp only
      decide
    · rw [renderTasks_card_texts]
      dsimp only
      decide
    · rw [renderTasks_card_texts]
      dsimp only
      decide

/-! ## Progress -/

theorem countP_completed_le (tasks : List Task) :
    (tasks.filter (fun task => task.completed)).length ≤ tasks.length :=
  List.length_filter_le _ _

theorem roundHalfEven_sub_le (y : ℚ) : |(roundHalfEven y : ℚ) - y| ≤ 1 / 2 := by
  have h1 : (⌊y⌋ : ℚ) ≤ y := Int.floor_le y
  have h2 : y < (⌊y⌋ : ℚ) + 1 := Int.lt_floor_add_one y
  unfold roundHalfEven
  dsimp only
  rw [abs_le]
  split
  · rename_i h
    constructor <;> linarith
  · rename_i h
    split
    · rename_i h3
      push_cast
      constructor <;> linarith
    · rename_i h3
      have h4 : y - (⌊y⌋ : ℚ) = 1 / 2 := le_antisymm (not_lt.1 h3) (not_lt.1 h)
      split
      · constructor <;> linarith
      · push_cast
        constructor <;> linarith

theorem roundHalfEven_eq (y : ℚ) (n : ℤ) (h1 : (n : ℚ) - 1 / 2 < y) (h2 : y < (n : ℚ) + 1 / 2) :
    roundHalfEven y = n := by
  have h := abs_le.1 (roundHalfEven_sub_le y)
  have hlt : ((roundHalfEven y : ℤ) : ℚ) < (n : ℚ) + 1 := by linarith [h.2]
  have hgt : (n : ℚ) - 1 < ((roundHalfEven y : ℤ) : ℚ) := by linarith [h.1]
  have hlt2 : roundHalfEven y < n + 1 := by exact_mod_cast hlt
  have hgt2 : n - 1 < roundHalfEven y := by exact_mod_cast hgt
  omega

theorem roundHalfEven_nonneg (y : ℚ) (hy : 0 ≤ y) : 0 ≤ roundHalfEven y := by
  have h0 : 0 ≤ ⌊y⌋ := Int.floor_nonneg.2 hy
  unfold roundHalfEven
  dsimp only
  split
  · exact h0
  · split
    · omega
    · split
      · exact h0
      · omega

theorem roundHalfEven_le (y : ℚ) (n : ℤ) (hy : y ≤ (n : ℚ)) : roundHalfEven y ≤ n := by
  have hfl : ⌊y⌋ ≤ n := Int.floor_le_iff.2 (by linarith)
  rcases lt_or_eq_of_le hy with hlt | heq
  · have hfl2 : ⌊y⌋ < n := Int.floor_lt.2 hlt
    unfold roundHalfEven
    dsimp only
    split
    · exact hfl
    · split
      · omega
      · split
        · exact hfl
        · omega
  · have hr : roundHalfEven y = n := roundHalfEven_eq y n (by linarith) (by linarith)
    omega

theorem log2_eq (x : ℚ) (k : ℤ) (hx : 0 < x) (h1 : (2 : ℚ) ^ k ≤ x)
    (h2 : x < (2 : ℚ) ^ (k + 1)) : Int.log 2 x = k := by
  have ha : k ≤ Int.log 2 x :=
    (Int.zpow_le_iff_le_log (b := 2) (by decide) hx).1 (by exact_mod_cast h1)
  have hb : Int.log 2 x < k + 1 :=
    (Int.lt_zpow_iff_log_lt (b := 2) (by decide) hx).1 (by exact_mod_cast h2)
  omega

theorem toDouble_eq (x : ℚ) (k n : ℤ) (hx : 0 < x) (hk1 : (2 : ℚ) ^ k ≤ x)
    (hk2 : x < (2 : ℚ) ^ (k + 1))
    (h1 : (n : ℚ) - 1 / 2 < x / (2 : ℚ) ^ (k - 52))
    (h2 : x / (2 : ℚ) ^ (k - 52) < (n : ℚ) + 1 / 2) :
    toDouble x = (n : ℚ) * (2 : ℚ) ^ (k - 52) := by
  unfold toDouble
  rw [if_neg (ne_of_gt hx)]
  dsimp only
  rw [abs_of_pos hx, log2_eq x k hx hk1 hk2, roundHalfEven_eq _ n h1 h2]

theorem toDouble_zero : toDouble 0 = 0 := by
  unfold toDouble
  rw [if_pos rfl]

theorem toDouble_nonneg (x : ℚ) (hx : 0 ≤ x) : 0 ≤ toDouble x := by
  unfold toDouble
  split
  · exact le_refl 0
  · dsimp only
    have hp : (0 : ℚ) < (2 : ℚ) ^ (Int.log 2 |x| - 52) := by positivity
    have hr := roundHalfEven_nonneg (x / (2 : ℚ) ^ (Int.log 2 |x| - 52))
      (div_nonneg hx (le_of_lt hp))
    have hr2 : (0 : ℚ) ≤ (roundHalfEven (x / (2 : ℚ) ^ (Int.log 2 |x| - 52)) : ℚ) := by
      exact_mod_cast hr
    exact mul_nonneg hr2 (le_of_lt hp)

theorem toDouble_sub_le (x : ℚ) (hx : 0 < x) :
    |toDouble x - x| ≤ x * (2 : ℚ) ^ (-53 : ℤ) := by
  unfold toDouble
  rw [if_neg (ne_of_gt hx)]
  dsimp only
  rw [abs_of_pos hx]
  have hp : (0 : ℚ) < (2 : ℚ) ^ (Int.log 2 x - 52) := by positivity
  have hlog : (2 : ℚ) ^ (Int.log 2 x) ≤ x := by
    have := Int.zpow_log_le_self (b := 2) (r := x) (by decide) hx
    exact_mod_cast this
  have hr := roundHalfEven_sub_le (x / (2 : ℚ) ^ (Int.log 2 x - 52))
  have hsplit : (roundHalfEven (x / (2 : ℚ) ^ (Int.log 2 x - 52)) : ℚ) *
      (2 : ℚ) ^ (Int.log 2 x - 52) - x =
      ((roundHalfEven (x / (2 : ℚ) ^ (Int.log 2 x - 52)) : ℚ) -
        x / (2 : ℚ) ^ (Int.log 2 x - 52)) * (2 : ℚ) ^ (Int.log 2 x - 52) := by
    field_simp
  rw [hsplit, abs_mul, abs_of_pos hp]
  have hpow : (2 : ℚ) ^ (Int.log 2 x - 52) * (1 / 2) =
      (2 : ℚ) ^ (Int.log 2 x) * (2 : ℚ) ^ (-53 : ℤ) := by
    rw [show Int.log 2 x - 52 = Int.log 2 x + (-52) by ring,
      zpow_add₀ (by norm_num : (2 : ℚ) ≠ 0)]
    norm_num
    ring
  calc |(roundHalfEven (x / (2 : ℚ) ^ (Int.log 2 x - 52)) : ℚ) -
          x / (2 : ℚ) ^ (Int.log 2 x - 52)| * (2 : ℚ) ^ (Int.log 2 x - 52)
      ≤ 1 / 2 * (2 : ℚ) ^ (Int.log 2 x - 52) := mul_le_mul_of_nonneg_right hr (le_of_lt hp)
    _ = (2 : ℚ) ^ (Int.log 2 x) * (2 : ℚ) ^ (-53 : ℤ) := by rw [mul_comm, hpow]
    _ ≤ x * (2 : ℚ) ^ (-53 : ℤ) := mul_le_mul_of_nonneg_right hlog (by positivity)

theorem toDouble_le_nat (x : ℚ) (b : ℕ) (hx : 0 < x) (hxb : x ≤ (b : ℚ))
    (hb : (b : ℚ) < (2 : ℚ) ^ (53 : ℤ)) : toDouble x ≤ (b : ℚ) := by
  have hbpos : (0 : ℚ) < (b : ℚ) := lt_of_lt_of_le hx hxb
  have hlogb : Int.log 2 (b : ℚ) < 53 :=
    (Int.lt_zpow_iff_log_lt (b := 2) (by decide) hbpos).1 (by exact_mod_cast hb)
  have hlogx : Int.log 2 x ≤ Int.log 2 (b : ℚ) := Int.log_mono_right hx hxb
  have he : Int.log 2 x - 52 ≤ 0 := by omega
  obtain ⟨m, hm⟩ : ∃ m : ℕ, -(Int.log 2 x - 52) = (m : ℤ) :=
    ⟨(-(Int.log 2 x - 52)).toNat, (Int.toNat_of_nonneg (by omega)).symm⟩
  have hp : (0 : ℚ) < (2 : ℚ) ^ (Int.log 2 x - 52) := by positivity
  have hdiv : (b : ℚ) / (2 : ℚ) ^ (Int.log 2 x - 52) = (((b * 2 ^ m : ℕ) : ℤ) : ℚ) := by
    have : Int.log 2 x - 52 = -(m : ℤ) := by omega
    rw [this, zpow_neg, zpow_natCast]
    push_cast
    field_simp
  unfold toDouble
  rw [if_neg (ne_of_gt hx)]
  dsimp only
  rw [abs_of_pos hx]
  have hle : x / (2 : ℚ) ^ (Int.log 2 x - 52) ≤ (((b * 2 ^ m : ℕ) : ℤ) : ℚ) := by
    rw [← hdiv]
    exact div_le_div_of_nonneg_right hxb (le_of_lt hp)
  have hr := roundHalfEven_le _ _ hle
  have hr2 : (roundHalfEven (x / (2 : ℚ) ^ (Int.log 2 x - 52)) : ℚ) ≤
      (((b * 2 ^ m : ℕ) : ℤ) : ℚ) := by exact_mod_cast hr
  calc (roundHalfEven (x / (2 : ℚ) ^ (Int.log 2 x - 52)) : ℚ) * (2 : ℚ) ^ (Int.log 2 x - 52)
      ≤ (((b * 2 ^ m : ℕ) : ℤ) : ℚ) * (2 : ℚ) ^ (Int.log 2 x - 52) :=
        mul_le_mul_of_nonneg_right hr2 (le_of_lt hp)
    _ = (b : ℚ) := by rw [← hdiv]; field_simp


theorem percent_bounds (c t : Nat) (hct : c ≤ t) : 0 ≤ percent c t ∧ percent c t ≤ 100 := by
  unfold percent
  split
  · norm_num
  · rename_i ht
    have htpos : (0 : ℚ) < (t : ℚ) := by exact_mod_cast Nat.pos_of_ne_zero ht
    have hq0 : (0 : ℚ) ≤ (c : ℚ) / (t : ℚ) := by positivity
    have hq1 : (c : ℚ) / (t : ℚ) ≤ 1 := (div_le_one htpos).2 (by exact_mod_cast hct)
    have hd0 := toDouble_nonneg _ hq0
    have hd1 : toDouble ((c : ℚ) / (t : ℚ)) ≤ 1 := by
      rcases eq_or_lt_of_le hq0 with h | h
      · rw [← h, toDouble_zero]
        norm_num
      · have := toDouble_le_nat _ 1 h (by simpa using hq1) (by norm_num)
        simpa using this
    have hz0 : (0 : ℚ) ≤ toDouble ((c : ℚ) / (t : ℚ)) * 100 := by positivity
    refine ⟨toDouble_nonneg _ hz0, ?_⟩
    rcases eq_or_lt_of_le hz0 with h | h
    · rw [← h, toDouble_zero]
      norm_num
    · have := toDouble_le_nat _ 100 h (by push_cast; linarith) (by norm_num)
      simpa using this

theorem percent_error (c t : Nat) (ht : t ≠ 0) :
    |percent c t - 100 * (c : ℚ) / (t : ℚ)| ≤ 100 * (c : ℚ) / (t : ℚ) * (2 : ℚ) ^ (-51 : ℤ) := by
  unfold percent
  rw [if_neg ht]
  have htpos : (0 : ℚ) < (t : ℚ) := by exact_mod_cast Nat.pos_of_ne_zero ht
  rcases Nat.eq_zero_or_pos c with hc | hc
  · subst hc
    simp [toDouble_zero]
  · have hcpos : (0 : ℚ) < (c : ℚ) := by exact_mod_cast hc
    have hx : (0 : ℚ) < (c : ℚ) / (t : ℚ) := div_pos hcpos htpos
    have h1 := abs_le.1 (toDouble_sub_le _ hx)
    have hu : (2 : ℚ) ^ (-53 : ℤ) = 1 / 9007199254740992 := by norm_num
    have hu2 : (2 : ℚ) ^ (-51 : ℤ) = 1 / 2251799813685248 := by norm_num
    rw [hu] at h1
    have hqpos : (0 : ℚ) < toDouble ((c : ℚ) / (t : ℚ)) := by
      nlinarith [h1.1]
    have hz : (0 : ℚ) < toDouble ((c : ℚ) / (t : ℚ)) * 100 := by positivity
    have h2 := abs_le.1 (toDouble_sub_le _ hz)
    rw [hu] at h2
    rw [hu2, abs_le]
    have hx100 : 100 * (c : ℚ) / (t : ℚ) = 100 * ((c : ℚ) / (t : ℚ)) := by ring
    rw [hx100]
    constructor <;> nlinarith [h1.1, h1.2, h2.1, h2.2]

theorem percent_two_of_four : percent 2 4 = 50 := by
  unfold percent
  rw [if_neg (by decide)]
  have h1 : toDouble ((2 : ℕ) / (4 : ℕ) : ℚ) = 1 / 2 := by
    rw [toDouble_eq _ (-1) (2 ^ 52) (by norm_num) (by norm_num) (by norm_num) (by norm_num)
      (by norm_num)]
    norm_num
  rw [h1]
  rw [toDouble_eq _ 5 (50 * 2 ^ 47) (by norm_num) (by norm_num) (by norm_num) (by norm_num)
    (by norm_num)]
  norm_num

theorem percent_seven_of_twentyfive :
    percent 7 25 = 28 + (2 : ℚ) ^ (-48 : ℤ) := by
  unfold percent
  rw [if_neg (by decide)]
  have h1 : toDouble ((7 : ℕ) / (25 : ℕ) : ℚ) = 1261007895663739 / 4503599627370496 := by
    rw [toDouble_eq _ (-2) 5044031582654956 (by norm_num) (by norm_num) (by norm_num)
      (by norm_num) (by norm_num)]
    norm_num
  rw [h1]
  rw [toDouble_eq _ 4 7881299347898369 (by norm_num) (by norm_num) (by norm_num)
    (by norm_num) (by norm_num)]
  norm_num

theorem progress_eq_percent (tasks : List Task) :
    progress tasks =
      percent (tasks.filter (fun task => task.completed)).length tasks.length := rfl

/-- C8, the claim as stated fails: with 7 of 25 records completed the progress
is the double 28.000000000000004, that is `28 + 2 ^ (-48)`, and not
`100 * 7 / 25 = 28`. -/
theorem progress_seven_of_twentyfive_not_exact :
    sevenOfTwentyFive.tasks.length = 25
    ∧ (sevenOfTwentyFive.tasks.filter (fun task => task.completed)).length = 7
    ∧ (renderProgressBar sevenOfTwentyFive).progressWidth = 28 + (2 : ℚ) ^ (-48 : ℤ)
    ∧ (renderProgressBar sevenOfTwentyFive).progressWidth ≠ 100 * (7 : ℚ) / 25 := by
  have hl : sevenOfTwentyFive.tasks.length = 25 := by decide
  have hc : (sevenOfTwentyFive.tasks.filter (fun task => task.completed)).length = 7 := by
    decide
  have hp : (renderProgressBar sevenOfTwentyFive).progressWidth =
      28 + (2 : ℚ) ^ (-48 : ℤ) := by
    show progress sevenOfTwentyFive.tasks = _
    rw [progress_eq_percent, hc, hl]
    exact percent_seven_of_twentyfive
  refine ⟨hl, hc, hp, ?_⟩
  rw [hp]
  norm_num

/-- C8, amended: for every collection and every current filter the progress
that `renderProgressBar` writes is 0 for the empty collection and otherwise
the double `(completed / total) * 100` counted over the whole collection: the
quotient rounded to the nearest double, times 100, rounded again.  It lies
between 0 and 100, differs from `100 * completed / total` by at most the
fraction `2 ^ (-51)` of that value, and is 50 when 2 of 4 records are
completed. -/
theorem renderProgressBar_spec (s : AppState) :
    (renderProgressBar s).progressWidth =
        (if s.tasks.length = 0 then 0
         else toDouble (toDouble
            (((s.tasks.filter (fun task => task.completed)).length : ℚ) /
              (s.tasks.length : ℚ)) * 100))
    ∧ (∀ f : String, (renderTasks { s with currentFilter := f }).progressWidth =
        (renderProgressBar s).progressWidth)
    ∧ 0 ≤ (renderProgressBar s).progressWidth
    ∧ (renderProgressBar s).progressWidth ≤ 100
    ∧ (renderProgressBar { s with tasks := [] }).progressWidth = 0
    ∧ (s.tasks.length ≠ 0 →
        |(renderProgressBar s).progressWidth -
            100 * ((s.tasks.filter (fun task => task.completed)).length : ℚ) /
              (s.tasks.length : ℚ)| ≤
          100 * ((s.tasks.filter (fun task => task.completed)).length : ℚ) /
              (s.tasks.length : ℚ) * (2 : ℚ) ^ (-51 : ℤ))
    ∧ (s.tasks.length = 4 → (s.tasks.filter (fun task => task.completed)).length = 2 →
        (renderProgressBar s).progressWidth = 50) := by
  have hdef : (renderProgressBar s).progressWidth =
      percent (s.tasks.filter (fun task => task.completed)).length s.tasks.length := rfl
  have hle := countP_completed_le s.tasks
  have hb := percent_bounds _ _ hle
  refine ⟨rfl, ?_, ?_, ?_, rfl, ?_, ?_⟩
  · intro f
    rw [renderTasks_progressWidth]
    rfl
  · rw [hdef]
    exact hb.1
  · rw [hdef]
    exact hb.2
  · intro ht
    rw [hdef]
    exact percent_error _ _ ht
  · intro h4 h2
    rw [hdef, h4, h2]
    exact percent_two_of_four

/-- Instance of C8 (amended): two of the four records of `fourTasks` are
completed. -/
theorem renderProgressBar_spec_witness :
    fourTasks.tasks.length = 4 ∧
    (fourTasks.tasks.filter (fun task => task.completed)).length = 2 ∧
    (renderProgressBar fourTasks).progressWidth = 50 ∧
    fourTasks.tasks.length ≠ 0 ∧
    |(renderProgressBar fourTasks).progressWidth -
        100 * ((fourTasks.tasks.filter (fun task => task.completed)).length : ℚ) /
          (fourTasks.tasks.length : ℚ)| ≤
      100 * ((fourTasks.tasks.filter (fun task => task.completed)).length : ℚ) /
          (fourTasks.tasks.length : ℚ) * (2 : ℚ) ^ (-51 : ℤ) :=
  ⟨by decide, by decide,
   (renderProgressBar_spec fourTasks).2.2.2.2.2.2 (by decide) (by decide),
   by decide,
   (renderProgressBar_spec fourTasks).2.2.2.2.2.1 (by decide)⟩

/-! ## Persistence: `JSON.parse` reads back what `JSON.stringify` wrote -/

theorem hexVal_hexDigit : ∀ d, d < 16 → hexVal (hexDigit d) = some d := by decide

theorem skipWs_cons_of_not_ws (c : Char) (cs : List Char) (h : isJsonWs c = false) :
    skipWs (c :: cs) = c :: cs := by
  simp [skipWs, List.dropWhile, h]

theorem char_eq_of_toNat_eq (c : Char) (n : Nat) (h : c.toNat = n) : Char.ofNat n = c := by
  rw [← h]
  exact Char.ofNat_toNat c

theorem parseUnicodeEscape_control (c : Char) (hc : c.toNat < 32) (rest : List Char) :
    parseUnicodeEscape
      ('0' :: '0' :: hexDigit (c.toNat / 16) :: hexDigit (c.toNat % 16) :: rest) =
      some (c, rest) := by
  have h1 : hexVal (hexDigit (c.toNat / 16)) = some (c.toNat / 16) :=
    hexVal_hexDigit _ (by omega)
  have h2 : hexVal (hexDigit (c.toNat % 16)) = some (c.toNat % 16) :=
    hexVal_hexDigit _ (by omega)
  have h0 : hexVal '0' = some 0 := by decide
  have hval : ((0 * 16 + 0) * 16 + c.toNat / 16) * 16 + c.toNat % 16 = c.toNat := by omega
  unfold parseUnicodeEscape parseHex4
  simp only [h0, h1, h2, hval]
  have hlo : ¬ (0xD800 ≤ c.toNat ∧ c.toNat ≤ 0xDBFF) := by omega
  have hhi : ¬ (0xDC00 ≤ c.toNat ∧ c.toNat ≤ 0xDFFF) := by omega
  rw [if_neg hlo, if_neg hhi, Char.ofNat_toNat]

theorem parseStringBody_step (c : Char) (fuel : Nat) (acc rest : List Char) :
    parseStringBody (fuel + 1) (quoteChar c ++ rest) acc =
      parseStringBody fuel rest (c :: acc) := by
  unfold quoteChar
  split
  · rename_i h
    subst h
    simp [parseStringBody]
  · split
    · rename_i h1 h
      subst h
      simp [parseStringBody]
    · split
      · rename_i h
        simp [parseStringBody]
        rw [char_eq_of_toNat_eq c 8 h]
      · split
        · rename_i h
          simp [parseStringBody]
          rw [char_eq_of_toNat_eq c 9 h]
        · split
          · rename_i h
            simp [parseStringBody]
            rw [char_eq_of_toNat_eq c 10 h]
          · split
            · rename_i h
              simp [parseStringBody]
              rw [char_eq_of_toNat_eq c 12 h]
            · split
              · rename_i h
                simp [parseStringBody]
                rw [char_eq_of_toNat_eq c 13 h]
              · split
                · rename_i h
                  simp [parseStringBody, parseUnicodeEscape_control c h]
                · rename_i hq hb _ _ _ _ _ h
                  simp [parseStringBody, hq, hb, h]

theorem parseStringBody_quoted (s : List Char) :
    ∀ (fuel : Nat) (acc rest : List Char), s.length + 1 ≤ fuel →
      parseStringBody fuel (s.flatMap quoteChar ++ '"' :: rest) acc =
        some (⟨acc.reverse ++ s⟩, rest) := by
  induction s with
  | nil =>
    intro fuel acc rest hf
    obtain ⟨f, rfl⟩ : ∃ f, fuel = f + 1 := ⟨fuel - 1, by simp at hf; omega⟩
    simp [parseStringBody]
  | cons c s ih =>
    intro fuel acc rest hf
    obtain ⟨f, rfl⟩ : ∃ f, fuel = f + 1 := ⟨fuel - 1, by simp at hf; omega⟩
    rw [List.flatMap_cons, List.append_assoc, parseStringBody_step, ih f (c :: acc) rest
      (by simp at hf; omega)]
    simp

theorem quoteChar_length_pos (c : Char) : 1 ≤ (quoteChar c).length := by
  unfold quoteChar
  repeat' split
  all_goals simp

theorem flatMap_quoteChar_length (s : List Char) :
    s.length ≤ (s.flatMap quoteChar).length := by
  induction s with
  | nil => simp
  | cons c s ih =>
    have := quoteChar_length_pos c
    simp only [List.flatMap_cons, List.length_append, List.length_cons]
    omega

theorem quoteJSONString_length (s : List Char) :
    (quoteJSONString s).length = (s.flatMap quoteChar).length + 2 := by
  simp [quoteJSONString]

theorem parseString_quoted (s : String) (fuel : Nat) (rest : List Char)
    (hf : (quoteJSONString s.data).length ≤ fuel + 1) :
    parseStringBody fuel (s.data.flatMap quoteChar ++ '"' :: rest) [] = some (s, rest) := by
  have h1 := flatMap_quoteChar_length s.data
  rw [quoteJSONString_length] at hf
  have := parseStringBody_quoted s.data fuel [] rest (by omega)
  simpa using this

theorem quoteJSONString_append (s rest : List Char) :
    quoteJSONString s ++ rest = '"' :: (s.flatMap quoteChar ++ '"' :: rest) := by
  simp [quoteJSONString]

theorem parseValue_str (s : String) (fuel : Nat) (rest : List Char)
    (hf : (quoteJSONString s.data).length ≤ fuel) :
    parseValue fuel (quoteJSONString s.data ++ rest) = some (.str s, rest) := by
  obtain ⟨f, rfl⟩ : ∃ f, fuel = f + 1 :=
    ⟨fuel - 1, by rw [quoteJSONString_length] at hf; omega⟩
  have hbody := parseString_quoted s f rest (by omega)
  rw [quoteJSONString_append]
  unfold parseValue
  rw [skipWs_cons_of_not_ws _ _ (by decide)]
  simp [hbody]

theorem parseValue_bool (b : Bool) (fuel : Nat) (rest : List Char) :
    parseValue (fuel + 1) (stringifyChars (.bool b) ++ rest) = some (.bool b, rest) := by
  cases b
  · unfold parseValue
    simp [stringifyChars, skipWs, List.dropWhile, isJsonWs]
  · unfold parseValue
    simp [stringifyChars, skipWs, List.dropWhile, isJsonWs]

theorem parseMembers_step (k : String) (v : JSValue) (V M : List Char) (f : Nat)
    (acc : List (String × JSValue))
    (hk : (quoteJSONString k.data).length ≤ f + 1)
    (hv : parseValue f (V ++ ',' :: M) = some (v, ',' :: M)) :
    parseMembers (f + 1) (quoteJSONString k.data ++ ':' :: (V ++ ',' :: M)) acc =
      parseMembers f M (setProp acc k v) := by
  have hbody := parseString_quoted k f (':' :: (V ++ ',' :: M)) hk
  rw [quoteJSONString_append, parseMembers]
  rw [skipWs_cons_of_not_ws _ _ (by decide)]
  simp only [if_true, hbody]
  rw [skipWs_cons_of_not_ws _ _ (by decide)]
  simp only [if_true, hv]
  rw [skipWs_cons_of_not_ws _ _ (by decide)]
  simp

theorem parseMembers_last (k : String) (v : JSValue) (V rest : List Char) (f : Nat)
    (acc : List (String × JSValue))
    (hk : (quoteJSONString k.data).length ≤ f + 1)
    (hv : parseValue f (V ++ '}' :: rest) = some (v, '}' :: rest)) :
    parseMembers (f + 1) (quoteJSONString k.data ++ ':' :: (V ++ '}' :: rest)) acc =
      some (.obj (setProp acc k v), rest) := by
  have hbody := parseString_quoted k f (':' :: (V ++ '}' :: rest)) hk
  rw [quoteJSONString_append, parseMembers]
  rw [skipWs_cons_of_not_ws _ _ (by decide)]
  simp only [if_true, hbody]
  rw [skipWs_cons_of_not_ws _ _ (by decide)]
  simp only [if_true, hv]
  rw [skipWs_cons_of_not_ws _ _ (by decide)]
  simp

theorem parseValue_object (k rest : List Char) (f : Nat) :
    parseValue (f + 1) ('{' :: (quoteJSONString k ++ rest)) =
      parseMembers f (quoteJSONString k ++ rest) [] := by
  rw [quoteJSONString_append, parseValue]
  rw [skipWs_cons_of_not_ws _ _ (by decide)]
  simp only
  rw [skipWs_cons_of_not_ws _ _ (by decide)]
  simp

theorem stringifyChars_task (t : Task) (rest : List Char) :
    stringifyChars (Task.toJS t) ++ rest =
      '{' :: (quoteJSONString "id".data ++ ':' :: (quoteJSONString t.id.data ++ ',' ::
        (quoteJSONString "text".data ++ ':' :: (quoteJSONString t.text.data ++ ',' ::
          (quoteJSONString "completed".data ++ ':' ::
            (stringifyChars (.bool t.completed) ++ '}' :: rest)))))) := by
  simp [Task.toJS, stringifyChars, stringifyProps]

theorem stringifyChars_bool_length (b : Bool) : 4 ≤ (stringifyChars (.bool b)).length := by
  cases b <;> simp [stringifyChars]

theorem stringifyChars_task_length (t : Task) :
    (stringifyChars (Task.toJS t)).length =
      (quoteJSONString t.id.data).length + (quoteJSONString t.text.data).length +
        (stringifyChars (.bool t.completed)).length + 28 := by
  have h := congrArg List.length (stringifyChars_task t [])
  have hkid : (quoteJSONString "id".data).length = 4 := by decide
  have hktext : (quoteJSONString "text".data).length = 6 := by decide
  have hkcompleted : (quoteJSONString "completed".data).length = 11 := by decide
  rw [List.append_nil] at h
  rw [h]
  simp only [List.length_cons, List.length_append, hkid, hktext, hkcompleted, List.length_nil]
  omega

theorem parseValue_task (t : Task) (fuel : Nat) (rest : List Char)
    (hf : (stringifyChars (Task.toJS t)).length ≤ fuel) :
    parseValue fuel (stringifyChars (Task.toJS t) ++ rest) = some (Task.toJS t, rest) := by
  rw [stringifyChars_task_length] at hf
  have hb := stringifyChars_bool_length t.completed
  have hkid : (quoteJSONString "id".data).length = 4 := by decide
  have hktext : (quoteJSONString "text".data).length = 6 := by decide
  have hkcompleted : (quoteJSONString "completed".data).length = 11 := by decide
  obtain ⟨f, rfl⟩ : ∃ f, fuel = f + 5 := ⟨fuel - 5, by omega⟩
  rw [stringifyChars_task, parseValue_object]
  rw [parseMembers_step "id" (.str t.id) _ _ (f + 3) [] (by omega)
    (parseValue_str t.id (f + 3) _ (by omega))]
  rw [parseMembers_step "text" (.str t.text) _ _ (f + 2) _ (by omega)
    (parseValue_str t.text (f + 2) _ (by omega))]
  rw [parseMembers_last "completed" (.bool t.completed) _ _ (f + 1) _ (by omega)
    (parseValue_bool t.completed f _)]
  rfl

theorem stringifyElems_length_pos (vs : List JSValue) : 1 ≤ (stringifyElems vs).length := by
  cases vs <;> simp [stringifyElems]

theorem parseElements_tasks (ts : List Task) :
    ∀ (t : Task) (acc : List JSValue) (fuel : Nat) (rest : List Char),
      (stringifyChars (Task.toJS t) ++ stringifyElems (ts.map Task.toJS)).length ≤ fuel →
      parseElements fuel
          (stringifyChars (Task.toJS t) ++ (stringifyElems (ts.map Task.toJS) ++ rest)) acc =
        some (.arr (acc ++ (t :: ts).map Task.toJS), rest) := by
  induction ts with
  | nil =>
    intro t acc fuel rest hf
    simp only [List.map_nil, stringifyElems, List.length_append, List.length_cons,
      List.length_nil] at hf
    obtain ⟨f, rfl⟩ : ∃ f, fuel = f + 1 := ⟨fuel - 1, by omega⟩
    rw [parseElements, parseValue_task t f _ (by omega)]
    simp only [List.map_nil, stringifyElems, List.cons_append, List.nil_append]
    rw [skipWs_cons_of_not_ws _ _ (by decide)]
    simp
  | cons u us ih =>
    intro t acc fuel rest hf
    simp only [List.map_cons, stringifyElems, List.length_append, List.length_cons] at hf
    obtain ⟨f, rfl⟩ : ∃ f, fuel = f + 1 := ⟨fuel - 1, by omega⟩
    rw [parseElements, parseValue_task t f _ (by omega)]
    simp only [List.map_cons, stringifyElems, List.cons_append, List.append_assoc]
    rw [skipWs_cons_of_not_ws _ _ (by decide)]
    simp only [if_true]
    rw [ih u (acc ++ [Task.toJS t]) f rest (by simp only [List.length_append]; omega)]
    simp

theorem stringifyChars_arr_cons (v : JSValue) (vs : List JSValue) :
    stringifyChars (.arr (v :: vs)) = '[' :: (stringifyChars v ++ stringifyElems vs) := by
  rw [stringifyChars]

theorem parseValue_tasks (ts : List Task) (fuel : Nat) (rest : List Char)
    (hf : (stringifyChars (tasksToJS ts)).length ≤ fuel) :
    parseValue fuel (stringifyChars (tasksToJS ts) ++ rest) = some (tasksToJS ts, rest) := by
  cases ts with
  | nil =>
    simp only [tasksToJS, List.map_nil, stringifyChars, List.length_cons, List.length_nil] at hf
    obtain ⟨f, rfl⟩ : ∃ f, fuel = f + 1 := ⟨fuel - 1, by omega⟩
    simp only [tasksToJS, List.map_nil, stringifyChars, List.cons_append, List.nil_append]
    rw [parseValue, skipWs_cons_of_not_ws _ _ (by decide)]
    simp only
    rw [skipWs_cons_of_not_ws _ _ (by decide)]
    simp
  | cons t ts =>
    rw [tasksToJS, List.map_cons, stringifyChars_arr_cons, List.length_cons] at hf
    obtain ⟨f, rfl⟩ : ∃ f, fuel = f + 1 := ⟨fuel - 1, by omega⟩
    have hrest := parseElements_tasks ts t [] f rest (by omega)
    rw [tasksToJS, List.map_cons, stringifyChars_arr_cons, List.cons_append,
      List.append_assoc]
    rw [stringifyChars_task] at hrest ⊢
    rw [parseValue, skipWs_cons_of_not_ws _ _ (by decide)]
    simp only
    rw [skipWs_cons_of_not_ws _ _ (by decide)]
    simpa using hrest

theorem parse_stringify_tasks (ts : List Task) :
    JSON.parse (JSON.stringify (tasksToJS ts)) = some (tasksToJS ts) := by
  have h := parseValue_tasks ts (2 * (stringifyChars (tasksToJS ts)).length + 2) [] (by omega)
  rw [List.append_nil] at h
  unfold JSON.parse JSON.stringify
  simp only [String.length]
  rw [h]
  simp [skipWs]

theorem stringify_tasks_ne_empty (ts : List Task) : JSON.stringify (tasksToJS ts) ≠ "" := by
  intro h
  have h2 := congrArg String.data h
  cases ts <;> simp [JSON.stringify, tasksToJS, stringifyChars] at h2

theorem Task.toJS_injective : Function.Injective Task.toJS := by
  intro a b h
  cases a
  cases b
  simp [Task.toJS] at h
  simp [h]

theorem tasksToJS_injective : Function.Injective tasksToJS := by
  intro a b h
  simp only [tasksToJS, JSValue.arr.injEq] at h
  exact List.map_injective_iff.2 Task.toJS_injective h

/-- C9: on a storage entry that accepts the write, `DataManager.saveTasks(tasks)`
followed by `DataManager.loadTasks()` returns the array of the same records:
the same ids, texts and completed flags in the same order (the array
determines the collection), for every collection including the empty one. -/
theorem save_load_roundtrip (tasks : List Task) (st : Storage)
    (haccept : st.accepts (JSON.stringify (tasksToJS tasks)) = true) :
    DataManager.loadTasks (DataManager.saveTasks tasks st) = tasksToJS tasks
    ∧ (DataManager.saveTasks tasks st).item = some (JSON.stringify (tasksToJS tasks))
    ∧ (∀ other : List Task, tasksToJS other = DataManager.loadTasks (DataManager.saveTasks tasks st) →
        other = tasks) := by
  have hload : DataManager.loadTasks (DataManager.saveTasks tasks st) = tasksToJS tasks := by
    unfold DataManager.loadTasks DataManager.saveTasks
    simp only [haccept, if_true, if_neg (stringify_tasks_ne_empty tasks),
      parse_stringify_tasks]
  refine ⟨hload, ?_, ?_⟩
  · unfold DataManager.saveTasks
    simp only [haccept, if_true]
  · intro other h
    rw [hload] at h
    exact tasksToJS_injective h

/-- Instance of C9: saving and loading `twoTasks` and the empty collection. -/
theorem save_load_roundtrip_witness :
    startState.storage.accepts (JSON.stringify (tasksToJS twoTasks.tasks)) = true ∧
    DataManager.loadTasks (DataManager.saveTasks twoTasks.tasks startState.storage) =
      tasksToJS twoTasks.tasks ∧
    DataManager.loadTasks (DataManager.saveTasks [] startState.storage) = tasksToJS [] :=
  ⟨rfl, (save_load_roundtrip twoTasks.tasks startState.storage rfl).1,
   (save_load_roundtrip [] startState.storage rfl).1⟩

/-! ## Committing a blank edit -/

/-- In edit mode, with a blank value in the edit field, the click handler of
the edit button only shows the failure toast and drops the classes of the
card: no record changes and no render runs. -/
theorem editBtnClick_blank (s : AppState) (card : TaskCard) (value : String)
    (hfind : s.cards.find? (fun c => c.node = card.node) = some card)
    (hediting : card.editing = true) (hinput : card.content = .input value)
    (hblank : isBlank value = true) :
    editBtnClick card.node s =
      updateCard card.node
        (fun c => { c with editing := false, editBtnLabel := "Edit", saveBtn := false })
        (showToast "Task description cannot be empty!" "error" s) := by
  have ht : jsTrim value = "" := (jsTrim_eq_empty_iff value).2 hblank
  unfold editBtnClick
  simp only [hfind, hediting, if_true, TaskCard.editInput, hinput]
  unfold editTask
  rw [if_pos ht]

/-- C10, evaluated on the code: a card for the stored task "Buy milk" is put
into edit mode, its field is overwritten by three spaces and Enter is pressed.
The record is unchanged and the card leaves edit mode, but `renderTasks` does
not run: the same card stays in the list and still holds the edit field with
the blank value instead of the static text, also after the field loses
focus. -/
theorem blank_commit_keeps_edit_field :
    blankEdit.cards.map (fun c => (c.node, c.editing, c.content)) =
        [(0, true, CardContent.input "   ")]
    ∧ blankCommit.tasks = [⟨"a1", "Buy milk", false⟩]
    ∧ blankCommit.renders = blankEdit.renders
    ∧ blankCommit.cards.map (fun c => (c.node, c.editing, c.content)) =
        [(0, false, CardContent.input "   ")]
    ∧ blankCommit.toasts = [⟨"Task description cannot be empty!", "error"⟩]
    ∧ (editInputBlur 0 blankCommit).cards = blankCommit.cards
    ∧ (editInputBlur 0 blankCommit).renders = blankEdit.renders := by
  decide

end TodoApp
